import Mathlib

/-!
# QIviPagingModel: the chunked paging cache

Shallow embedding of `src/src/ivicore/qivipagingmodel.cpp`.

Conventions of the embedding.

* C++ `int` values are `Int`; `/` on `int` is truncating division (`Int.tdiv`) and a zero
  divisor is a fault. An `int` sum or difference formed from an argument that the caller
  chooses freely wraps around at the ends of the `int` range (`wrapInt`): the threshold
  test `m_fetchedDataCount - m_fetchMoreThreshold` of `data()` and the sums
  `start + items.count()` of `onDataFetchedIn`. The other sums are exact; they stay inside
  the `int` range whenever their arguments and the container sizes do.
* `QList<QVariant>` is `List QVariant`, `QBitArray` is `List Bool`, `QUuid` is `Nat` with
  `0` the null uuid, `QFlags<ModelCapability>` is the `Nat` holding the flag bits.
* The Qt container members follow the Qt 5 documentation: `QList::at`, `QList::replace`,
  `QList::removeAt`, `QBitArray::setBit` require a valid index (a call outside the range is
  a fault), `QList::insert` prepends for `i <= 0` and appends for `i >= size()`.
* `Q_ASSERT` has no rejecting path. In a build with assertions a false condition ends the
  process: the handler is `aborted` with `Fault.assertFailed`. In a build with
  `QT_NO_DEBUG` the line expands to nothing. `onDataFetched` is the handler of the build
  with assertions over exact sums; `onDataFetchedIn asserts` is the handler of either
  build over `int` sums, and `onDataFetchedIn_exact` relates the two.
* A handler maps the private object to an `Outcome`: either `done` with the object after
  the call and the signals and backend calls raised, in order, or `aborted` with the fault
  and the object and signals as they stood when the fault was hit.
* `qWarning` output is not part of the model.
* Signals are delivered by direct connection: the slot `onFetchMoreThresholdReached`,
  connected to `fetchMoreThresholdReached` in `initialize`, runs inside `data()`, and the
  signal `countChanged` follows `rowsInserted`, `rowsRemoved` and `modelReset`.
* A read (`data`, `get`) yields a `ReadOutcome`, which carries the value returned as well.
* `Reachable allowed d` says that `d` is reached from a constructed object through
  operations and notifications that run to their end in the build with assertions; a
  fault ends the run. `ReachableIn asserts allowed d` says the same of the build given by
  `asserts`.
-/

namespace QtIvi

/-- A `QVariant` as stored in the item list: the invalid variant `QVariant()` or an item. -/
inductive QVariant where
  | invalid
  | item (v : Nat)
  deriving DecidableEq, Repr

/-- A `QUuid`; `0` is the null uuid. -/
abbrev QUuid := Nat

/-- The member `QUuid::isNull`. -/
def QUuid.isNull (u : QUuid) : Bool := u == 0

/-- The enum `QIviPagingModel::LoadingType`. -/
inductive LoadingType where
  | FetchMore
  | DataChanged
  deriving DecidableEq, Repr

/-- The value a `QModelIndex` built by `QAbstractListModel::index` carries: a row, or
nothing for the invalid index. -/
abbrev QModelIndex := Option Int

/-- Signals raised by the model and calls made on the backend, as they are observed. -/
inductive Signal where
  | capabilitiesChanged (capabilities : Nat)
  | rowsAboutToBeInserted (first last : Int)
  | rowsInserted (first last : Int)
  | rowsAboutToBeRemoved (first last : Int)
  | rowsRemoved (first last : Int)
  | dataChanged (topLeft bottomRight : QModelIndex)
  | modelAboutToBeReset
  | modelReset
  | countChanged
  | chunkSizeChanged (chunkSize : Int)
  | fetchMoreThresholdChanged (fetchMoreThreshold : Int)
  | loadingTypeChanged (loadingType : LoadingType)
  | fetchMoreThresholdReached
  | backendRegisterInstance (identifier : QUuid)
  | backendFetchData (identifier : QUuid) (start count : Int)
  deriving DecidableEq, Repr

/-- Why a handler stopped before its end. -/
inductive Fault where
  | assertFailed
  | indexOutOfRange
  | divideByZero
  deriving DecidableEq, Repr

/-- Result of a loop over a container: the container after the loop, or the fault and the
container as it stood when the fault was hit. -/
inductive Run (σ : Type) where
  | ok (s : σ)
  | fault (why : Fault) (s : σ)
  deriving DecidableEq, Repr

/-- The values of a C++ `int`: `INT_MIN <= x <= INT_MAX`. -/
abbrev inIntRange (x : Int) : Prop := -2147483648 ≤ x ∧ x ≤ 2147483647

/-- The value an `int` holds after an arithmetic operation whose exact result is `x`:
`x` itself inside the `int` range, `x` wrapped around by two's complement outside it. -/
def wrapInt (x : Int) : Int := (x + 2147483648) % 4294967296 - 2147483648

namespace QList

/-- The member `QList::count()`. -/
def count {α : Type} (l : List α) : Int := (l.length : Int)

/-- The member `QList::at(i)`; `i` must be a valid index. -/
def atIndex {α : Type} (l : List α) (i : Int) : Option α :=
  if 0 ≤ i ∧ i < count l then l.get? i.toNat else none

/-- The member `QList::replace(i, value)`; `i` must be a valid index. -/
def replace {α : Type} (l : List α) (i : Int) (value : α) : Option (List α) :=
  if 0 ≤ i ∧ i < count l then some (l.set i.toNat value) else none

/-- The member `QList::removeAt(i)`; `i` must be a valid index. -/
def removeAt {α : Type} (l : List α) (i : Int) : Option (List α) :=
  if 0 ≤ i ∧ i < count l then some (l.eraseIdx i.toNat) else none

/-- The member `QList::insert(i, value)`: prepends when `i <= 0`, appends when
`i >= size()`. -/
def insert {α : Type} (l : List α) (i : Int) (value : α) : List α :=
  if i ≤ 0 then value :: l
  else if count l ≤ i then l ++ [value]
  else l.take i.toNat ++ value :: l.drop i.toNat

end QList

namespace QBitArray

/-- The member `QBitArray::count()`, the number of bits. -/
def count (b : List Bool) : Int := (b.length : Int)

/-- The member `QBitArray::at(i)`; `i` must be a valid index. -/
def atIndex (b : List Bool) (i : Int) : Option Bool :=
  if 0 ≤ i ∧ i < count b then b.get? i.toNat else none

/-- The member `QBitArray::setBit(i)`; `i` must be a valid index. -/
def setBit (b : List Bool) (i : Int) : Option (List Bool) :=
  if 0 ≤ i ∧ i < count b then some (b.set i.toNat true) else none

/-- The member `QBitArray::resize(size)`: truncates, or extends with cleared bits; a
negative size is outside its contract. -/
def resize (b : List Bool) (size : Int) : Option (List Bool) :=
  if size < 0 then none
  else some (b.take size.toNat ++ List.replicate (size.toNat - b.length) false)

end QBitArray

/-- The data members of `QIviPagingModelPrivate`, and whether a backend is bound. -/
structure QIviPagingModelPrivate where
  m_capabilities : Nat
  m_chunkSize : Int
  m_moreAvailable : Bool
  m_identifier : QUuid
  m_fetchMoreThreshold : Int
  m_fetchedDataCount : Int
  m_loadingType : LoadingType
  m_itemList : List QVariant
  m_availableChunks : List Bool
  hasBackend : Bool
  deriving DecidableEq, Repr

/-- What a call on the model yields. -/
inductive Outcome where
  | done (d : QIviPagingModelPrivate) (out : List Signal)
  | aborted (why : Fault) (d : QIviPagingModelPrivate) (out : List Signal)
  deriving DecidableEq, Repr

/-- The outcome `o` of a callee, with the signals `earlier` raised by the caller before the
call put in front. -/
def Outcome.withEarlier (earlier : List Signal) : Outcome → Outcome
  | .done d out => .done d (earlier ++ out)
  | .aborted why d out => .aborted why d (earlier ++ out)

/-- What a read of the model yields: the value returned, the object after the read and the
signals and backend calls raised by it, or the fault that stopped it. -/
inductive ReadOutcome where
  | returned (value : QVariant) (d : QIviPagingModelPrivate) (out : List Signal)
  | aborted (why : Fault) (d : QIviPagingModelPrivate) (out : List Signal)
  deriving DecidableEq, Repr

/-- Modelled from the spec: the bit of the capability flag
`QtIviCoreModule::SupportsGetSize` ("supports size reporting"), whose declaration
(`qtivicoremodule.h`) is not among the sources; any single bit serves. -/
def SupportsGetSize : Nat := 1

/-- The value `QtIviCoreModule::NoExtras`, the empty flag set. -/
def NoExtras : Nat := 0

/-- The member `QFlags::testFlag(flag)`. -/
def testFlag (flags flag : Nat) : Bool :=
  (flags &&& flag) == flag && (flag != 0 || flags == flag)

namespace QIviPagingModelPrivate

/-- The call `q->index(row)`: `QAbstractListModel::index` with column 0, valid exactly for
`0 <= row < rowCount()`. -/
def index (d : QIviPagingModelPrivate) (row : Int) : QModelIndex :=
  if 0 ≤ row ∧ row < QList.count d.m_itemList then some row else none

/-- The body of `onCapabilitiesChanged`. -/
def onCapabilitiesChanged (d : QIviPagingModelPrivate) (identifier : QUuid)
    (capabilities : Nat) : Outcome :=
  if ¬ identifier.isNull ∧ identifier ≠ d.m_identifier then .done d []
  else if d.m_capabilities = capabilities then .done d []
  else .done { d with m_capabilities := capabilities } [.capabilitiesChanged capabilities]

/-- The loop `for (int i = 0; i < items.count(); i++) m_itemList.replace(start + i,
items.at(i));` of `onDataFetched`, entered at `i` with `n` iterations left. -/
def fetchedReplaceLoop (items : List QVariant) (start : Int) :
    Nat → Int → List QVariant → Run (List QVariant)
  | 0, _, l => .ok l
  | n + 1, i, l =>
    match QList.atIndex items i with
    | none => .fault .indexOutOfRange l
    | some v =>
      match QList.replace l (start + i) v with
      | none => .fault .indexOutOfRange l
      | some l2 => fetchedReplaceLoop items start n (i + 1) l2

/-- The body of `onDataFetched` in the build with assertions, over exact sums. -/
def onDataFetched (d : QIviPagingModelPrivate) (identifier : QUuid) (items : List QVariant)
    (start : Int) (moreAvailable : Bool) : Outcome :=
  if ¬ identifier.isNull ∧ (QList.count items = 0 ∨ identifier ≠ d.m_identifier) then
    .done d []
  else if ¬ QList.count items ≤ d.m_chunkSize then .aborted .assertFailed d []
  else if d.m_chunkSize = 0 then .aborted .divideByZero d []
  else if (start + QList.count items - 1).tdiv d.m_chunkSize ≠ start.tdiv d.m_chunkSize then
    .aborted .assertFailed d []
  else
    let d1 := { d with m_moreAvailable := moreAvailable }
    match d1.m_loadingType with
    | .FetchMore =>
      let first := QList.count d1.m_itemList
      let last := QList.count d1.m_itemList + QList.count items - 1
      let d2 := { d1 with m_itemList := d1.m_itemList ++ items }
      let d3 := { d2 with m_fetchedDataCount := QList.count d2.m_itemList }
      .done d3 [.rowsAboutToBeInserted first last, .rowsInserted first last, .countChanged]
    | .DataChanged =>
      let newSize := start + QList.count items
      if QList.count d1.m_itemList < newSize
          ∨ QBitArray.count d1.m_availableChunks < newSize.tdiv d1.m_chunkSize then
        .done d1 []
      else
        let d2 := { d1 with m_fetchedDataCount := start + QList.count items }
        match fetchedReplaceLoop items start items.length 0 d2.m_itemList with
        | .fault why l => .aborted why { d2 with m_itemList := l } []
        | .ok l =>
          let d3 := { d2 with m_itemList := l }
          match QBitArray.setBit d3.m_availableChunks (start.tdiv d3.m_chunkSize) with
          | none => .aborted .indexOutOfRange d3 []
          | some bits =>
            let d4 := { d3 with m_availableChunks := bits }
            .done d4 [.dataChanged (d4.index start)
              (d4.index (start + QList.count items - 1))]

/-- The body of `onDataFetched` in either build, over machine integers. With `asserts`
set the two `Q_ASSERT` lines are compiled in and a false one ends the process; with
`asserts` clear (`QT_NO_DEBUG`) they expand to nothing, and the first division by the
chunk size is the one of the `countChanged` guard, reached when the first operand of its
`||` is false. The sums `start + items.count()` and `start + items.count() - 1` are `int`
sums and wrap around. The row `start + i` of the replace loop is exact: the loop stops at
the first row outside the list, which comes before a row above `INT_MAX`. -/
def onDataFetchedIn (asserts : Bool) (d : QIviPagingModelPrivate) (identifier : QUuid)
    (items : List QVariant) (start : Int) (moreAvailable : Bool) : Outcome :=
  if ¬ identifier.isNull ∧ (QList.count items = 0 ∨ identifier ≠ d.m_identifier) then
    .done d []
  else if asserts = true ∧ ¬ QList.count items ≤ d.m_chunkSize then
    .aborted .assertFailed d []
  else if asserts = true ∧ d.m_chunkSize = 0 then .aborted .divideByZero d []
  else if asserts = true
      ∧ (wrapInt (wrapInt (start + QList.count items) - 1)).tdiv d.m_chunkSize
        ≠ start.tdiv d.m_chunkSize then
    .aborted .assertFailed d []
  else
    let d1 := { d with m_moreAvailable := moreAvailable }
    match d1.m_loadingType with
    | .FetchMore =>
      let first := QList.count d1.m_itemList
      let last := QList.count d1.m_itemList + QList.count items - 1
      let d2 := { d1 with m_itemList := d1.m_itemList ++ items }
      let d3 := { d2 with m_fetchedDataCount := QList.count d2.m_itemList }
      .done d3 [.rowsAboutToBeInserted first last, .rowsInserted first last, .countChanged]
    | .DataChanged =>
      let newSize := wrapInt (start + QList.count items)
      if QList.count d1.m_itemList < newSize then .done d1 []
      else if d1.m_chunkSize = 0 then .aborted .divideByZero d1 []
      else if QBitArray.count d1.m_availableChunks < newSize.tdiv d1.m_chunkSize then
        .done d1 []
      else
        let d2 := { d1 with m_fetchedDataCount := wrapInt (start + QList.count items) }
        match fetchedReplaceLoop items start items.length 0 d2.m_itemList with
        | .fault why l => .aborted why { d2 with m_itemList := l } []
        | .ok l =>
          let d3 := { d2 with m_itemList := l }
          match QBitArray.setBit d3.m_availableChunks (start.tdiv d3.m_chunkSize) with
          | none => .aborted .indexOutOfRange d3 []
          | some bits =>
            let d4 := { d3 with m_availableChunks := bits }
            .done d4 [.dataChanged (d4.index start)
              (d4.index (wrapInt (wrapInt (start + QList.count items) - 1)))]

/-- The body of `onCountChanged`. -/
def onCountChanged (d : QIviPagingModelPrivate) (identifier : QUuid) (new_length : Int) :
    Outcome :=
  if ¬ identifier.isNull ∧ (identifier ≠ d.m_identifier ∨ d.m_loadingType ≠ .DataChanged
      ∨ QList.count d.m_itemList = new_length) then
    .done d []
  else
    let first := QList.count d.m_itemList
    let last := QList.count d.m_itemList + new_length - 1
    let d1 := { d with m_itemList := d.m_itemList ++ List.replicate new_length.toNat .invalid }
    let out := [Signal.rowsAboutToBeInserted first last, .rowsInserted first last,
      .countChanged]
    if d1.m_chunkSize = 0 then .aborted .divideByZero d1 out
    else
      match QBitArray.resize d1.m_availableChunks (new_length.tdiv d1.m_chunkSize + 1) with
      | none => .aborted .indexOutOfRange d1 out
      | some bits => .done { d1 with m_availableChunks := bits } out

/-- The loop `for (int i = start, j=0; j < updateCount; i++, j++) m_itemList.replace(i,
data.at(j));` of `onDataChanged`, entered at `i`, `j` with `n` iterations left. -/
def updateLoop (data : List QVariant) :
    Nat → Int → Int → List QVariant → Run (List QVariant)
  | 0, _, _, l => .ok l
  | n + 1, i, j, l =>
    match QList.atIndex data j with
    | none => .fault .indexOutOfRange l
    | some v =>
      match QList.replace l i v with
      | none => .fault .indexOutOfRange l
      | some l2 => updateLoop data n (i + 1) (j + 1) l2

/-- The loop `for (int i = insertRemoveStart; i < insertRemoveStart + insertRemoveCount;
i++) m_itemList.removeAt(i);` of `onDataChanged`, entered at `i` with `n` iterations
left. -/
def removeLoop : Nat → Int → List QVariant → Run (List QVariant)
  | 0, _, l => .ok l
  | n + 1, i, l =>
    match QList.removeAt l i with
    | none => .fault .indexOutOfRange l
    | some l2 => removeLoop n (i + 1) l2

/-- The loop `for (int i = insertRemoveStart, j = updateCountEnd; i < insertRemoveStart +
insertRemoveCount; i++, j++) m_itemList.insert(i, data.at(j));` of `onDataChanged`,
entered at `i`, `j` with `n` iterations left. -/
def insertLoop (data : List QVariant) :
    Nat → Int → Int → List QVariant → Run (List QVariant)
  | 0, _, _, l => .ok l
  | n + 1, i, j, l =>
    match QList.atIndex data j with
    | none => .fault .indexOutOfRange l
    | some v => insertLoop data n (i + 1) (j + 1) (QList.insert l i v)

/-- The part of `onDataChanged` after the update block: the remove branch (`delta < 0`),
the insert branch (`delta > 0`) or nothing, with `out` the signals raised so far. -/
def onDataChangedInsertRemove (d : QIviPagingModelPrivate) (data : List QVariant)
    (delta updateCountEnd insertRemoveStart insertRemoveCount : Int) (out : List Signal) :
    Outcome :=
  let last := insertRemoveStart + insertRemoveCount - 1
  if delta < 0 then
    let out1 := out ++ [.rowsAboutToBeRemoved insertRemoveStart last]
    match removeLoop insertRemoveCount.toNat insertRemoveStart d.m_itemList with
    | .fault why l => .aborted why { d with m_itemList := l } out1
    | .ok l =>
      .done { d with m_itemList := l } (out1 ++ [.rowsRemoved insertRemoveStart last,
        .countChanged])
  else if delta > 0 then
    let out1 := out ++ [.rowsAboutToBeInserted insertRemoveStart last]
    match insertLoop data insertRemoveCount.toNat insertRemoveStart updateCountEnd
        d.m_itemList with
    | .fault why l => .aborted why { d with m_itemList := l } out1
    | .ok l =>
      .done { d with m_itemList := l } (out1 ++ [.rowsInserted insertRemoveStart last,
        .countChanged])
  else .done d out

/-- The body of `onDataChanged`. -/
def onDataChanged (d : QIviPagingModelPrivate) (identifier : QUuid) (data : List QVariant)
    (start count : Int) : Outcome :=
  if ¬ identifier.isNull ∧ identifier ≠ d.m_identifier then .done d []
  else if start < 0 ∨ start > QList.count d.m_itemList then .done d []
  else if count < 0 ∨ count > QList.count d.m_itemList - start then .done d []
  else
    let delta := QList.count data - count
    let updateCount := min (QList.count data) count
    let updateCountEnd := if updateCount > 0 then updateCount + 1 else 0
    let insertRemoveStart := start + updateCountEnd
    let insertRemoveCount := max (QList.count data) count - updateCount
    if updateCount > 0 then
      match updateLoop data updateCount.toNat start 0 d.m_itemList with
      | .fault why l => .aborted why { d with m_itemList := l } []
      | .ok l =>
        let d1 := { d with m_itemList := l }
        onDataChangedInsertRemove d1 data delta updateCountEnd insertRemoveStart
          insertRemoveCount [.dataChanged (d1.index start) (d1.index (start + updateCount - 1))]
    else
      onDataChangedInsertRemove d data delta updateCountEnd insertRemoveStart
        insertRemoveCount []

/-- The body of `fetchData`. -/
def fetchData (d : QIviPagingModelPrivate) (startIndex : Int) : Outcome :=
  if ¬ d.hasBackend then .done d []
  else
    let d1 := { d with m_moreAvailable := false }
    let start := if startIndex ≥ 0 then startIndex else d1.m_fetchedDataCount
    if d1.m_chunkSize = 0 then .aborted .divideByZero d1 []
    else
      let chunkIndex := start.tdiv d1.m_chunkSize
      if chunkIndex < QBitArray.count d1.m_availableChunks then
        match QBitArray.setBit d1.m_availableChunks chunkIndex with
        | none => .aborted .indexOutOfRange d1 []
        | some bits =>
          .done { d1 with m_availableChunks := bits }
            [.backendFetchData d1.m_identifier start d1.m_chunkSize]
      else .done d1 [.backendFetchData d1.m_identifier start d1.m_chunkSize]

/-- The body of `QIviPagingModel::canFetchMore(parent)`. -/
def canFetchMore (d : QIviPagingModelPrivate) (parent : QModelIndex) : Bool :=
  if parent.isSome then false else d.m_moreAvailable

/-- The body of `QIviPagingModel::fetchMore(parent)`. -/
def fetchMore (d : QIviPagingModelPrivate) (parent : QModelIndex) : Outcome :=
  if parent.isSome then .done d []
  else if ¬ d.hasBackend ∨ ¬ d.m_moreAvailable then .done d []
  else fetchData { d with m_moreAvailable := false } (-1)

/-- The body of `onFetchMoreThresholdReached`, the slot connected to the signal
`fetchMoreThresholdReached` in `initialize`. -/
def onFetchMoreThresholdReached (d : QIviPagingModelPrivate) : Outcome :=
  fetchMore d none

/-- The body of `resetModel`. -/
def resetModel (d : QIviPagingModelPrivate) : Outcome :=
  let d1 := { d with
    m_itemList := []
    m_availableChunks := []
    m_fetchedDataCount := 0
    m_moreAvailable := true }
  (fetchMore d1 none).withEarlier [.modelAboutToBeReset, .modelReset, .countChanged]

/-- The body of `clearToDefaults`; `fresh` is the uuid `QUuid::createUuid()` returns. -/
def clearToDefaults (d : QIviPagingModelPrivate) (fresh : QUuid) : Outcome :=
  let d1 := { d with
    m_chunkSize := 30
    m_moreAvailable := false
    m_identifier := fresh
    m_fetchMoreThreshold := 10
    m_fetchedDataCount := 0
    m_loadingType := .FetchMore
    m_capabilities := NoExtras
    m_itemList := [] }
  (resetModel d1).withEarlier [.chunkSizeChanged 30, .fetchMoreThresholdChanged 10,
    .loadingTypeChanged .FetchMore, .capabilitiesChanged NoExtras]

/-- The body of `QIviPagingModel::setChunkSize`. -/
def setChunkSize (d : QIviPagingModelPrivate) (chunkSize : Int) : Outcome :=
  if d.m_chunkSize = chunkSize then .done d []
  else .done { d with m_chunkSize := chunkSize } [.chunkSizeChanged chunkSize]

/-- The body of `QIviPagingModel::setFetchMoreThreshold`. -/
def setFetchMoreThreshold (d : QIviPagingModelPrivate) (fetchMoreThreshold : Int) : Outcome :=
  if d.m_fetchMoreThreshold = fetchMoreThreshold then .done d []
  else .done { d with m_fetchMoreThreshold := fetchMoreThreshold }
    [.fetchMoreThresholdChanged fetchMoreThreshold]

/-- The body of `QIviPagingModel::setLoadingType`. -/
def setLoadingType (d : QIviPagingModelPrivate) (loadingType : LoadingType) : Outcome :=
  if d.m_loadingType = loadingType then .done d []
  else if loadingType = .DataChanged ∧ ¬ testFlag d.m_capabilities SupportsGetSize then
    .done d []
  else
    (resetModel { d with m_loadingType := loadingType }).withEarlier
      [.loadingTypeChanged loadingType]

/-- The body of `QIviPagingModel::reload`. -/
def reload (d : QIviPagingModelPrivate) : Outcome :=
  resetModel d

/-- The body of `QIviPagingModel::clearServiceObject`. -/
def clearServiceObject (d : QIviPagingModelPrivate) (fresh : QUuid) : Outcome :=
  clearToDefaults d fresh

/-- The body of `QIviPagingModel::data(index, ItemRole)`, the call `get` makes; the two
other roles differ only in the value taken from the item found. -/
def data (d : QIviPagingModelPrivate) (index : QModelIndex) : ReadOutcome :=
  match index with
  | none => .returned .invalid d []
  | some row =>
    if row ≥ QList.count d.m_itemList ∨ row < 0 then .returned .invalid d []
    else if d.m_chunkSize = 0 then .aborted .divideByZero d []
    else
      let chunkIndex := row.tdiv d.m_chunkSize
      let miss : Option Bool :=
        match d.m_loadingType with
        | .FetchMore => some false
        | .DataChanged => (QBitArray.atIndex d.m_availableChunks chunkIndex).map not
      match miss with
      | none => .aborted .indexOutOfRange d []
      | some true =>
        match fetchData d (chunkIndex * d.m_chunkSize) with
        | .aborted why d1 out => .aborted why d1 out
        | .done d1 out => .returned .invalid d1 out
      | some false =>
        let reached : Outcome :=
          if row ≥ wrapInt (d.m_fetchedDataCount - d.m_fetchMoreThreshold)
              ∧ d.canFetchMore none then
            (onFetchMoreThresholdReached d).withEarlier [.fetchMoreThresholdReached]
          else .done d []
        match reached with
        | .aborted why d1 out => .aborted why d1 out
        | .done d1 out =>
          match QList.atIndex d1.m_itemList row with
          | none => .aborted .indexOutOfRange d1 out
          | some value => .returned value d1 out

/-- The body of `QIviPagingModel::get(i)`: `data(index(i,0), ItemRole)`. -/
def get (d : QIviPagingModelPrivate) (i : Int) : ReadOutcome :=
  data d (d.index i)

/-- The object `d2` differs from `d` at most in `m_moreAvailable` and in availability bits
that are set in `d2`: what a fetch request leaves behind. -/
def onlyMarks (d d2 : QIviPagingModelPrivate) : Prop :=
  ∃ (more : Bool) (bits : List Bool),
    d2 = { d with m_moreAvailable := more, m_availableChunks := bits }
    ∧ bits.length = d.m_availableChunks.length
    ∧ ∀ k : Int, QBitArray.atIndex d.m_availableChunks k = some true →
        QBitArray.atIndex bits k = some true

/-- Every populated slot of the item list has the availability bit of its chunk set. -/
def populatedAreMarked (d : QIviPagingModelPrivate) : Prop :=
  ∀ (j v : Nat), d.m_itemList.get? j = some (.item v) →
    QBitArray.atIndex d.m_availableChunks ((j : Int) / d.m_chunkSize) = some true

/-- No slot of the item list is populated. -/
def noPopulated (d : QIviPagingModelPrivate) : Prop :=
  ∀ x ∈ d.m_itemList, x = QVariant.invalid

end QIviPagingModelPrivate

/-- The item list `[item 0, ..., item (n - 1)]`. -/
def itemRange (n : Nat) : List QVariant := (List.range n).map QVariant.item

/-- A model object with the member values the constructor of `QIviPagingModelPrivate`
sets (chunk size 30, threshold 10, nothing fetched), identifier 7, a backend bound, and
the given loading type, item list and availability bits. -/
def sampleModel (loadingType : LoadingType) (items : List QVariant) (bits : List Bool) :
    QIviPagingModelPrivate :=
  { m_capabilities := 0, m_chunkSize := 30, m_moreAvailable := false, m_identifier := 7,
    m_fetchMoreThreshold := 10, m_fetchedDataCount := 0, m_loadingType := loadingType,
    m_itemList := items, m_availableChunks := bits, hasBackend := true }

/-- The object as the constructor of `QIviPagingModelPrivate` leaves it; `identifier` is
the uuid `QUuid::createUuid()` returned and `hasBackend` tells whether a service object
providing the backend has been set since. -/
def constructed (identifier : QUuid) (hasBackend : Bool) : QIviPagingModelPrivate :=
  { m_capabilities := NoExtras, m_chunkSize := 30, m_moreAvailable := false,
    m_identifier := identifier, m_fetchMoreThreshold := 10, m_fetchedDataCount := 0,
    m_loadingType := .FetchMore, m_itemList := [], m_availableChunks := [],
    hasBackend := hasBackend }

/-- The public operations of `QIviPagingModel` and the notifications of the backend. -/
inductive Op where
  | setChunkSize (chunkSize : Int)
  | setFetchMoreThreshold (fetchMoreThreshold : Int)
  | setLoadingType (loadingType : LoadingType)
  | reload
  | clearServiceObject (fresh : QUuid)
  | get (i : Int)
  | fetchMore
  | onCapabilitiesChanged (identifier : QUuid) (capabilities : Nat)
  | onDataFetched (identifier : QUuid) (items : List QVariant) (start : Int)
      (moreAvailable : Bool)
  | onCountChanged (identifier : QUuid) (new_length : Int)
  | onDataChanged (identifier : QUuid) (data : List QVariant) (start count : Int)
  deriving DecidableEq, Repr

/-- A read seen as a call that changes the object: the value returned is dropped. -/
def ReadOutcome.toOutcome : ReadOutcome → Outcome
  | .returned _ d out => .done d out
  | .aborted why d out => .aborted why d out

/-- The effect of one operation or notification on the object. -/
def Op.run (d : QIviPagingModelPrivate) : Op → Outcome
  | .setChunkSize chunkSize => d.setChunkSize chunkSize
  | .setFetchMoreThreshold fetchMoreThreshold => d.setFetchMoreThreshold fetchMoreThreshold
  | .setLoadingType loadingType => d.setLoadingType loadingType
  | .reload => d.reload
  | .clearServiceObject fresh => d.clearServiceObject fresh
  | .get i => (d.get i).toOutcome
  | .fetchMore => d.fetchMore none
  | .onCapabilitiesChanged identifier capabilities =>
    d.onCapabilitiesChanged identifier capabilities
  | .onDataFetched identifier items start moreAvailable =>
    d.onDataFetched identifier items start moreAvailable
  | .onCountChanged identifier new_length => d.onCountChanged identifier new_length
  | .onDataChanged identifier data start count => d.onDataChanged identifier data start count

/-- The objects reachable from a constructed one through operations and notifications
that run to their end, each of them permitted by `allowed` in the object it is applied
to. -/
inductive Reachable (allowed : QIviPagingModelPrivate → Op → Prop) :
    QIviPagingModelPrivate → Prop where
  | start (identifier : QUuid) (hasBackend : Bool) :
      Reachable allowed (constructed identifier hasBackend)
  | step (d d2 : QIviPagingModelPrivate) (op : Op) (out : List Signal) :
      Reachable allowed d → allowed d op → op.run d = .done d2 out → Reachable allowed d2

/-- Every operation and notification is permitted. -/
def anyOp : QIviPagingModelPrivate → Op → Prop := fun _ _ => True

/-- Every operation and notification is permitted, `setChunkSize` with a positive value
only. -/
def positiveChunkSizes (_ : QIviPagingModelPrivate) : Op → Prop
  | .setChunkSize chunkSize => 0 < chunkSize
  | _ => True

/-- The effect of one operation or notification on the object in either build: as
`Op.run`, with `onDataFetchedIn asserts` for the `dataFetched` notification, the one
handler that holds `Q_ASSERT` lines. -/
def Op.runIn (asserts : Bool) (d : QIviPagingModelPrivate) : Op → Outcome
  | .onDataFetched identifier items start moreAvailable =>
    d.onDataFetchedIn asserts identifier items start moreAvailable
  | op => op.run d

/-- The objects reachable from a constructed one in the build given by `asserts`, through
operations and notifications that run to their end, each of them permitted by `allowed`
in the object it is applied to. -/
inductive ReachableIn (asserts : Bool) (allowed : QIviPagingModelPrivate → Op → Prop) :
    QIviPagingModelPrivate → Prop where
  | start (identifier : QUuid) (hasBackend : Bool) :
      ReachableIn asserts allowed (constructed identifier hasBackend)
  | step (d d2 : QIviPagingModelPrivate) (op : Op) (out : List Signal) :
      ReachableIn asserts allowed d → allowed d op → op.runIn asserts d = .done d2 out →
      ReachableIn asserts allowed d2

/-- The operations and notifications under which the availability bits of the populated
slots are kept. `setChunkSize` changes the chunk size only while no slot is populated. A
`dataChanged` notification is one the handler drops. A count report is dropped, or
resizes the tracker to a size inside the `int` range while no slot is populated or
without shrinking it. A `dataFetched` notification handled under `DataChanged` is dropped
by the identifier filter or satisfies the conditions of the two assertions of the
handler, `items.count() <= m_chunkSize` and `(start + items.count() - 1) / m_chunkSize
== start / m_chunkSize`. Everything else is permitted. -/
def keepsBits (d : QIviPagingModelPrivate) : Op → Prop
  | .setChunkSize chunkSize => d.noPopulated ∨ chunkSize = d.m_chunkSize
  | .onDataChanged identifier data start count =>
    d.onDataChanged identifier data start count = .done d []
  | .onCountChanged identifier new_length =>
    d.onCountChanged identifier new_length = .done d []
    ∨ (new_length.tdiv d.m_chunkSize + 1 ≤ 2147483647
      ∧ (d.noPopulated
        ∨ QBitArray.count d.m_availableChunks ≤ new_length.tdiv d.m_chunkSize + 1))
  | .onDataFetched identifier items start _ =>
    d.m_loadingType = .FetchMore
    ∨ (¬ identifier.isNull ∧ (QList.count items = 0 ∨ identifier ≠ d.m_identifier))
    ∨ (QList.count items ≤ d.m_chunkSize
      ∧ (start + QList.count items - 1).tdiv d.m_chunkSize = start.tdiv d.m_chunkSize)
  | _ => True

end QtIvi

namespace QtIvi

open QIviPagingModelPrivate

/-! ## Container lemmas -/

theorem QList.atIndex_append_cons {α : Type} (pre : List α) (v : α) (post : List α)
    (i : Int) (hi : i = (pre.length : Int)) :
    QList.atIndex (pre ++ v :: post) i = some v := by
  subst hi
  unfold QList.atIndex QList.count
  rw [if_pos (by simp), Int.toNat_ofNat, List.get?_eq_getElem?,
    List.getElem?_append_right (le_refl _)]
  simp

theorem QList.replace_append_cons {α : Type} (pre : List α) (m v : α) (post : List α)
    (i : Int) (hi : i = (pre.length : Int)) :
    QList.replace (pre ++ m :: post) i v = some (pre ++ v :: post) := by
  subst hi
  unfold QList.replace QList.count
  rw [if_pos (by simp)]
  simp

theorem QList.replace_length {α : Type} (l l2 : List α) (i : Int) (v : α)
    (h : QList.replace l i v = some l2) : l2.length = l.length := by
  unfold QList.replace at h
  split at h
  · cases h; simp
  · cases h

/-- The replace loop of `onDataFetched`, run over the `n` slots `mid` that follow the
`s + k` slots `pre`, writes the remaining items `its` over them. -/
theorem fetchedReplaceLoop_writes (items : List QVariant) (s : Nat) :
    ∀ (n : Nat) (seen its pre mid post : List QVariant) (k : Nat),
      items = seen ++ its → seen.length = k → its.length = n → pre.length = s + k →
      mid.length = n →
      fetchedReplaceLoop items (s : Int) n (k : Int) (pre ++ mid ++ post)
        = .ok (pre ++ its ++ post)
  | 0, seen, its, pre, mid, post, k, _, _, hits, _, hmid => by
    have h1 : its = [] := List.length_eq_zero.mp hits
    have h2 : mid = [] := List.length_eq_zero.mp hmid
    subst h1 h2
    rfl
  | n + 1, seen, its, pre, mid, post, k, hitems, hseen, hits, hpre, hmid => by
    obtain ⟨v, its2, rfl⟩ := List.exists_cons_of_length_eq_add_one hits
    obtain ⟨m, mid2, rfl⟩ := List.exists_cons_of_length_eq_add_one hmid
    have hat : QList.atIndex items (k : Int) = some v := by
      rw [hitems]
      exact QList.atIndex_append_cons seen v its2 _ (by rw [hseen])
    have hrep : QList.replace (pre ++ m :: mid2 ++ post) ((s : Int) + (k : Int)) v
        = some (pre ++ v :: (mid2 ++ post)) := by
      have := QList.replace_append_cons pre m v (mid2 ++ post) ((s : Int) + (k : Int))
        (by rw [hpre]; push_cast; rfl)
      simpa using this
    unfold fetchedReplaceLoop
    rw [hat]
    simp only
    rw [hrep]
    simp only
    have ih := fetchedReplaceLoop_writes items s n (seen ++ [v]) its2 (pre ++ [v]) mid2 post
      (k + 1) (by simp [hitems]) (by simp [hseen]) (by simpa using hits)
      (by simp [hpre]; omega) (by simpa using hmid)
    have e1 : pre ++ v :: (mid2 ++ post) = pre ++ [v] ++ mid2 ++ post := by simp
    have e2 : pre ++ v :: its2 ++ post = pre ++ [v] ++ its2 ++ post := by simp
    rw [e1, e2]
    exact_mod_cast ih

/-- The replace loop of `onDataFetched` over a range that lies inside the list. -/
theorem fetchedReplaceLoop_inside (items l : List QVariant) (s : Nat)
    (h : s + items.length ≤ l.length) :
    fetchedReplaceLoop items (s : Int) items.length 0 l
      = .ok (l.take s ++ items ++ l.drop (s + items.length)) := by
  have hl : l = l.take s ++ (l.drop s).take items.length ++ l.drop (s + items.length) := by
    rw [List.append_assoc, ← List.drop_drop, List.take_append_drop, List.take_append_drop]
  have := fetchedReplaceLoop_writes items s items.length [] items (l.take s)
    ((l.drop s).take items.length) (l.drop (s + items.length)) 0 (by simp) rfl rfl
    (by simp; omega) (by simp; omega)
  rw [← hl] at this
  exact_mod_cast this

/-! ## Arithmetic of chunk indices -/

theorem tdiv_succ_le (a c : Int) (ha : 0 ≤ a) (hc : 0 < c) :
    (a + 1).tdiv c ≤ a.tdiv c + 1 := by
  rw [Int.tdiv_eq_ediv (by omega) (le_of_lt hc), Int.tdiv_eq_ediv ha (le_of_lt hc)]
  have h1 : (a + 1) / c ≤ (a + c) / c := Int.ediv_le_ediv hc (by omega)
  have h2 : (a + c) / c = a / c + 1 := Int.add_ediv_of_dvd_right (dvd_refl c) |>.trans
    (by rw [Int.ediv_self (ne_of_gt hc)])
  omega

theorem tdiv_mono_nonneg (a b c : Int) (ha : 0 ≤ a) (hab : a ≤ b) (hc : 0 < c) :
    a.tdiv c ≤ b.tdiv c := by
  rw [Int.tdiv_eq_ediv ha (le_of_lt hc), Int.tdiv_eq_ediv (by omega) (le_of_lt hc)]
  exact Int.ediv_le_ediv hc hab

/-! ## Machine integers and the two builds -/

/-- Inside the `int` range nothing wraps. -/
theorem wrapInt_of_inIntRange (x : Int) (h : inIntRange x) : wrapInt x = x := by
  obtain ⟨h1, h2⟩ := h
  unfold wrapInt
  omega

/-- The ways `onDataFetchedIn` runs to its end in either build: the notification is
dropped, the batch is appended under `FetchMore`, the batch is discarded under
`DataChanged`, or the batch is written in place under `DataChanged`. -/
theorem onDataFetchedIn_done (asserts : Bool) (d d2 : QIviPagingModelPrivate)
    (identifier : QUuid) (items : List QVariant) (start : Int) (moreAvailable : Bool)
    (out : List Signal)
    (h : onDataFetchedIn asserts d identifier items start moreAvailable = .done d2 out) :
    d2 = d
    ∨ (d.m_loadingType = .FetchMore
      ∧ d2 = { d with
          m_moreAvailable := moreAvailable
          m_itemList := d.m_itemList ++ items
          m_fetchedDataCount := QList.count (d.m_itemList ++ items) })
    ∨ (d.m_loadingType = .DataChanged ∧ d2 = { d with m_moreAvailable := moreAvailable })
    ∨ (d.m_loadingType = .DataChanged
      ∧ ¬ (¬ identifier.isNull ∧ (QList.count items = 0 ∨ identifier ≠ d.m_identifier))
      ∧ d.m_chunkSize ≠ 0
      ∧ 0 ≤ start.tdiv d.m_chunkSize
      ∧ start.tdiv d.m_chunkSize < QBitArray.count d.m_availableChunks
      ∧ ∃ l, fetchedReplaceLoop items start items.length 0 d.m_itemList = .ok l
        ∧ d2 = { d with
            m_moreAvailable := moreAvailable
            m_fetchedDataCount := wrapInt (start + QList.count items)
            m_itemList := l
            m_availableChunks :=
              d.m_availableChunks.set (start.tdiv d.m_chunkSize).toNat true }) := by
  unfold onDataFetchedIn at h
  by_cases hf : ¬ identifier.isNull
      ∧ (QList.count items = 0 ∨ identifier ≠ d.m_identifier)
  · rw [if_pos hf] at h
    cases h
    exact Or.inl rfl
  rw [if_neg hf] at h
  split at h
  · cases h
  split at h
  · cases h
  split at h
  · cases h
  dsimp only at h
  cases hload : d.m_loadingType with
  | FetchMore =>
    rw [hload] at h
    dsimp only at h
    cases h
    exact Or.inr (Or.inl ⟨rfl, rfl⟩)
  | DataChanged =>
    rw [hload] at h
    dsimp only at h
    split at h
    · cases h
      exact Or.inr (Or.inr (Or.inl ⟨rfl, rfl⟩))
    by_cases hc : d.m_chunkSize = 0
    · rw [if_pos hc] at h
      cases h
    rw [if_neg hc] at h
    split at h
    · cases h
      exact Or.inr (Or.inr (Or.inl ⟨rfl, rfl⟩))
    cases hloop : fetchedReplaceLoop items start items.length 0 d.m_itemList with
    | fault why l => rw [hloop] at h; cases h
    | ok l =>
      rw [hloop] at h
      dsimp only at h
      unfold QBitArray.setBit at h
      by_cases hr : 0 ≤ start.tdiv d.m_chunkSize
          ∧ start.tdiv d.m_chunkSize < QBitArray.count d.m_availableChunks
      · rw [if_pos hr] at h
        cases h
        exact Or.inr (Or.inr (Or.inr ⟨rfl, hf, hc, hr.1, hr.2, l, rfl, rfl⟩))
      · rw [if_neg hr] at h
        cases h

/-- While the sums `start + items.count()` and `start + items.count() - 1` stay inside
the `int` range, `onDataFetchedIn` is `onDataFetched`: in the build with assertions
always, in the build without on every batch that satisfies both assertions. -/
theorem onDataFetchedIn_exact (asserts : Bool) (d : QIviPagingModelPrivate)
    (identifier : QUuid) (items : List QVariant) (start : Int) (moreAvailable : Bool)
    (hsum : inIntRange (start + QList.count items))
    (hlast : inIntRange (start + QList.count items - 1))
    (hpre : asserts = true ∨ (QList.count items ≤ d.m_chunkSize ∧ d.m_chunkSize ≠ 0
      ∧ (start + QList.count items - 1).tdiv d.m_chunkSize = start.tdiv d.m_chunkSize)) :
    onDataFetchedIn asserts d identifier items start moreAvailable
      = onDataFetched d identifier items start moreAvailable := by
  unfold onDataFetchedIn onDataFetched
  rw [wrapInt_of_inIntRange _ hsum, wrapInt_of_inIntRange _ hlast]
  by_cases hf : ¬ identifier.isNull ∧ (QList.count items = 0 ∨ identifier ≠ d.m_identifier)
  · rw [if_pos hf, if_pos hf]
  rw [if_neg hf, if_neg hf]
  by_cases hsize : ¬ QList.count items ≤ d.m_chunkSize
  · rcases hpre with rfl | hpre
    · rw [if_pos ⟨rfl, hsize⟩, if_pos hsize]
    · exact absurd hpre.1 hsize
  rw [if_neg (fun h => hsize h.2), if_neg hsize]
  by_cases hc : d.m_chunkSize = 0
  · rcases hpre with rfl | hpre
    · rw [if_pos ⟨rfl, hc⟩, if_pos hc]
    · exact absurd hc hpre.2.1
  rw [if_neg (fun h => hc h.2), if_neg hc]
  by_cases halign : (start + QList.count items - 1).tdiv d.m_chunkSize
      ≠ start.tdiv d.m_chunkSize
  · rcases hpre with rfl | hpre
    · rw [if_pos ⟨rfl, halign⟩, if_pos halign]
    · exact absurd hpre.2.2 halign
  rw [if_neg (fun h => halign h.2), if_neg halign]
  dsimp only
  cases d.m_loadingType with
  | FetchMore => rfl
  | DataChanged =>
    dsimp only
    rw [if_neg hc]
    by_cases h1 : QList.count d.m_itemList < start + QList.count items
    · rw [if_pos h1, if_pos (Or.inl h1)]
    rw [if_neg h1]
    by_cases h2 : QBitArray.count d.m_availableChunks
        < (start + QList.count items).tdiv d.m_chunkSize
    · rw [if_pos h2, if_pos (Or.inr h2)]
    rw [if_neg h2, if_neg (fun h => h.elim h1 h2)]

/-- An operation other than the `dataFetched` notification runs alike in both builds. -/
theorem runIn_eq_run (asserts : Bool) (d : QIviPagingModelPrivate) (op : Op)
    (h : ∀ identifier items start moreAvailable,
      op ≠ .onDataFetched identifier items start moreAvailable) :
    op.runIn asserts d = op.run d := by
  cases op with
  | onDataFetched identifier items start moreAvailable =>
    exact absurd rfl (h identifier items start moreAvailable)
  | _ => rfl

theorem reachableIn_mono (asserts : Bool) (a b : QIviPagingModelPrivate → Op → Prop)
    (hab : ∀ d op, a d op → b d op) (d : QIviPagingModelPrivate)
    (h : ReachableIn asserts a d) : ReachableIn asserts b d := by
  induction h with
  | start identifier hasBackend => exact ReachableIn.start identifier hasBackend
  | step d d2 op out _ hall hrun ih =>
    exact ReachableIn.step d d2 op out ih (hab d op hall) hrun

/-- In either build, the object reached from construction (identifier 7, backend set) by
the capability report `SupportsGetSize` and `setLoadingType(DataChanged)`. -/
theorem reachableIn_fresh_dataChanged (asserts : Bool) :
    ReachableIn asserts keepsBits
      { sampleModel .DataChanged [] [] with m_capabilities := SupportsGetSize } :=
  ReachableIn.step _ _ (.setLoadingType .DataChanged)
    [.loadingTypeChanged .DataChanged, .modelAboutToBeReset, .modelReset, .countChanged,
      .backendFetchData 7 0 30]
    (ReachableIn.step _ _ (.onCapabilitiesChanged 7 SupportsGetSize)
      [.capabilitiesChanged SupportsGetSize] (ReachableIn.start 7 true) trivial rfl)
    trivial rfl

/-- In either build, the object reached from the fresh `DataChanged` object by the count
report 40: forty empty slots and two unset bits. -/
theorem reachableIn_forty_slots (asserts : Bool) :
    ReachableIn asserts keepsBits
      { sampleModel .DataChanged (List.replicate 40 .invalid) [false, false] with
        m_capabilities := SupportsGetSize } :=
  ReachableIn.step _ _ (.onCountChanged 7 40)
    [.rowsAboutToBeInserted 0 39, .rowsInserted 0 39, .countChanged]
    (reachableIn_fresh_dataChanged asserts)
    (Or.inr ⟨by decide, Or.inr (by decide)⟩) rfl

/-- In either build, the object reached from the forty empty slots by the read of row 35,
a cache miss that requests chunk 1, and the answer `dataFetched(identifier, [x], 30,
false)`: row 30 is populated and bit 1 is set. -/
theorem reachableIn_row_thirty_fetched (asserts : Bool) :
    ReachableIn asserts keepsBits
      { sampleModel .DataChanged
          (List.replicate 30 .invalid ++ .item 1 :: List.replicate 9 .invalid)
          [false, true] with
        m_capabilities := SupportsGetSize, m_fetchedDataCount := 31 } :=
  ReachableIn.step _ _ (.onDataFetched 7 [.item 1] 30 false)
    [.dataChanged (some 30) (some 30)]
    (ReachableIn.step _ _ (.get 35) [.backendFetchData 7 30 30]
      (reachableIn_forty_slots asserts) trivial rfl)
    (Or.inr (Or.inr ⟨by decide, by decide⟩)) (by cases asserts <;> rfl)

/-! ## Data fulfillment (`onDataFetched`) -/

/-- An identifier that is null, or the object's own with a non-empty batch, is not caught
by the first `return` of `onDataFetched`. -/
theorem onDataFetched_filter_passes (d : QIviPagingModelPrivate) (identifier : QUuid)
    (items : List QVariant)
    (hid : identifier.isNull = true ∨ (items ≠ [] ∧ identifier = d.m_identifier)) :
    ¬ (¬ identifier.isNull ∧ (QList.count items = 0 ∨ identifier ≠ d.m_identifier)) := by
  rintro ⟨h1, h2⟩
  rcases hid with h | ⟨hne, he⟩
  · exact h1 h
  · rcases h2 with h2 | h2
    · apply hne
      unfold QList.count at h2
      exact List.length_eq_zero.mp (by exact_mod_cast h2)
    · exact h2 he

/-- The `DataChanged` branch of `onDataFetched` on a batch that passes every check and
lies inside the list and the tracker. -/
theorem onDataFetched_fulfil (d : QIviPagingModelPrivate) (identifier : QUuid)
    (items : List QVariant) (start : Int) (moreAvailable : Bool)
    (hload : d.m_loadingType = .DataChanged)
    (hid : identifier.isNull = true ∨ (items ≠ [] ∧ identifier = d.m_identifier))
    (hsize : QList.count items ≤ d.m_chunkSize)
    (halign : (start + QList.count items - 1).tdiv d.m_chunkSize = start.tdiv d.m_chunkSize)
    (hn : 1 ≤ QList.count items) (hstart : 0 ≤ start)
    (hcover : start + QList.count items ≤ QList.count d.m_itemList)
    (hbits : start.tdiv d.m_chunkSize < QBitArray.count d.m_availableChunks) :
    onDataFetched d identifier items start moreAvailable
      = .done { d with
          m_moreAvailable := moreAvailable
          m_fetchedDataCount := start + QList.count items
          m_itemList := d.m_itemList.take start.toNat ++ items
            ++ d.m_itemList.drop (start.toNat + items.length)
          m_availableChunks := d.m_availableChunks.set (start.tdiv d.m_chunkSize).toNat true }
        [.dataChanged (some start) (some (start + QList.count items - 1))] := by
  obtain ⟨s, rfl⟩ := Int.eq_ofNat_of_zero_le hstart
  have hc : 0 < d.m_chunkSize := by omega
  have hguard : ¬ (QList.count d.m_itemList < (s : Int) + QList.count items
      ∨ QBitArray.count d.m_availableChunks
        < ((s : Int) + QList.count items).tdiv d.m_chunkSize) := by
    have h1 := tdiv_succ_le ((s : Int) + QList.count items - 1) d.m_chunkSize (by omega) hc
    have h2 : (s : Int) + QList.count items - 1 + 1 = (s : Int) + QList.count items := by
      omega
    rw [h2, halign] at h1
    omega
  have hlen : s + items.length ≤ d.m_itemList.length := by
    unfold QList.count at hcover
    exact_mod_cast hcover
  have hq : 0 ≤ (s : Int).tdiv d.m_chunkSize := Int.tdiv_nonneg (by omega) (le_of_lt hc)
  unfold onDataFetched
  rw [if_neg (onDataFetched_filter_passes d identifier items hid), if_neg (not_not.mpr hsize),
    if_neg (ne_of_gt hc), if_neg (not_not.mpr halign)]
  simp only [hload]
  rw [if_neg hguard, fetchedReplaceLoop_inside items d.m_itemList s hlen]
  simp only [QBitArray.setBit]
  rw [if_pos ⟨hq, hbits⟩]
  simp only [index, QList.count, Int.toNat_ofNat]
  rw [if_pos (by simp; unfold QList.count at hcover hn; omega),
    if_pos (by simp; unfold QList.count at hcover hn; omega)]

/-! ## Delta reconciliation (`onDataChanged`) -/

/-- C1: evaluation of `onDataChanged` on the ten items `0..9` with `start = 5`,
`count = 3` and two new items: the handler finishes with the list
`0,1,2,3,4,a,b,7,9`, which is not `s[0..5) ++ [a,b] ++ s[8..10)`: item 7, inside the
replaced range, survives and item 8, outside it, is removed. -/
theorem onDataChanged_delta_drops_item_outside_range :
    (∃ out, onDataChanged (sampleModel .FetchMore (itemRange 10) []) 0
        [.item 100, .item 101] 5 3
      = .done (sampleModel .FetchMore
          [.item 0, .item 1, .item 2, .item 3, .item 4, .item 100, .item 101, .item 7,
            .item 9] []) out)
    ∧ ([.item 0, .item 1, .item 2, .item 3, .item 4, .item 100, .item 101, .item 7,
          .item 9]
        ≠ (itemRange 10).take 5 ++ [QVariant.item 100, .item 101] ++ (itemRange 10).drop 8) := by
  refine ⟨⟨_, rfl⟩, by decide⟩

/-- C2: evaluation of `onDataChanged` on the two items `0,1` with `start = 0`, `count = 2`
and one new item: the removal loop calls `removeAt(2)` on a list of two items and the
handler stops there, the list still holding two items instead of `2 - 2 + 1 = 1`. -/
theorem onDataChanged_length_law_fails_at_tail :
    onDataChanged (sampleModel .FetchMore (itemRange 2) []) 0 [.item 100] 0 2
      = .aborted .indexOutOfRange (sampleModel .FetchMore [.item 100, .item 1] [])
          [.dataChanged (some 0) (some 0), .rowsAboutToBeRemoved 2 2]
    ∧ ([QVariant.item 100, .item 1].length : Int) ≠ 2 - 2 + 1 := by
  refine ⟨rfl, by decide⟩

/-- C3: evaluation of `onDataChanged` on the ten items `0..9` with `start = 5`,
`count = 3` and two new items (`updateCount = 2`, `delta = -1`): the removed-rows
notification is raised over row 8, not over row `start + updateCount = 7`. -/
theorem onDataChanged_seam_is_one_past_update :
    ∃ d, onDataChanged (sampleModel .FetchMore (itemRange 10) []) 0
        [.item 100, .item 101] 5 3
      = .done d [.dataChanged (some 5) (some 6), .rowsAboutToBeRemoved 8 8,
          .rowsRemoved 8 8, .countChanged]
      ∧ Signal.rowsRemoved 8 8 ≠ Signal.rowsRemoved (5 + 2) (5 + 2 + 1 - 1) := by
  refine ⟨_, rfl, by decide⟩

/-- C4: a `dataChanged` notification whose `start` lies outside `[0, length]` or whose
`count` lies outside `[0, length - start]` leaves the whole object as it was and raises
no signal. -/
theorem onDataChanged_rejects_out_of_range (d : QIviPagingModelPrivate) (identifier : QUuid)
    (data : List QVariant) (start count : Int)
    (h : start < 0 ∨ start > QList.count d.m_itemList ∨ count < 0
      ∨ count > QList.count d.m_itemList - start) :
    onDataChanged d identifier data start count = .done d [] := by
  unfold onDataChanged
  by_cases hid : ¬ identifier.isNull ∧ identifier ≠ d.m_identifier
  · rw [if_pos hid]
  · rw [if_neg hid]
    by_cases hs : start < 0 ∨ start > QList.count d.m_itemList
    · rw [if_pos hs]
    · rw [if_neg hs]
      have hc : count < 0 ∨ count > QList.count d.m_itemList - start := by
        rcases h with h | h | h | h
        · exact absurd (Or.inl h) hs
        · exact absurd (Or.inr h) hs
        · exact Or.inl h
        · exact Or.inr h
      rw [if_pos hc]

/-- Witness for C4: `start = 4` on a list of three items. -/
theorem onDataChanged_rejects_out_of_range_witness :
    onDataChanged (sampleModel .FetchMore (itemRange 3) []) 0 [.item 100] 4 0
      = .done (sampleModel .FetchMore (itemRange 3) []) [] :=
  onDataChanged_rejects_out_of_range (sampleModel .FetchMore (itemRange 3) []) 0
    [.item 100] 4 0 (Or.inr (Or.inl (by decide)))

/-! ## Identifier filtering -/

/-- C5: each of the four handlers, given an identifier that is neither null nor the
object's own `m_identifier`, returns at once: the object is unchanged and no signal or
backend call is raised. -/
theorem foreign_identifier_is_dropped (d : QIviPagingModelPrivate) (identifier : QUuid)
    (hnull : identifier.isNull = false) (hne : identifier ≠ d.m_identifier) :
    (∀ capabilities, onCapabilitiesChanged d identifier capabilities = .done d [])
    ∧ (∀ items start moreAvailable,
        onDataFetched d identifier items start moreAvailable = .done d [])
    ∧ (∀ new_length, onCountChanged d identifier new_length = .done d [])
    ∧ (∀ data start count, onDataChanged d identifier data start count = .done d []) := by
  refine ⟨?_, ?_, ?_, ?_⟩
  · intro capabilities
    unfold onCapabilitiesChanged
    rw [if_pos ⟨by simp [hnull], hne⟩]
  · intro items start moreAvailable
    unfold onDataFetched
    rw [if_pos ⟨by simp [hnull], Or.inr hne⟩]
  · intro new_length
    unfold onCountChanged
    rw [if_pos ⟨by simp [hnull], Or.inl hne⟩]
  · intro data start count
    unfold onDataChanged
    rw [if_pos ⟨by simp [hnull], hne⟩]

/-- Witness for C5: identifier 8 against an object whose identifier is 7. -/
theorem foreign_identifier_is_dropped_witness :
    (∀ capabilities, onCapabilitiesChanged (sampleModel .DataChanged (itemRange 3) [false]) 8
        capabilities = .done (sampleModel .DataChanged (itemRange 3) [false]) [])
    ∧ (∀ items start moreAvailable,
        onDataFetched (sampleModel .DataChanged (itemRange 3) [false]) 8 items start
          moreAvailable = .done (sampleModel .DataChanged (itemRange 3) [false]) [])
    ∧ (∀ new_length, onCountChanged (sampleModel .DataChanged (itemRange 3) [false]) 8
        new_length = .done (sampleModel .DataChanged (itemRange 3) [false]) [])
    ∧ (∀ data start count, onDataChanged (sampleModel .DataChanged (itemRange 3) [false]) 8
        data start count = .done (sampleModel .DataChanged (itemRange 3) [false]) []) :=
  foreign_identifier_is_dropped (sampleModel .DataChanged (itemRange 3) [false]) 8
    (by decide) (by decide)

/-! ## Replaying the replace loop -/

theorem fetchedReplaceLoop_length (items : List QVariant) (start : Int) :
    ∀ (n : Nat) (i : Int) (l l2 : List QVariant),
      fetchedReplaceLoop items start n i l = .ok l2 → l2.length = l.length
  | 0, i, l, l2, h => by
    unfold fetchedReplaceLoop at h
    cases h
    rfl
  | n + 1, i, l, l2, h => by
    unfold fetchedReplaceLoop at h
    cases hat : QList.atIndex items i with
    | none => rw [hat] at h; cases h
    | some v =>
      rw [hat] at h
      simp only at h
      cases hrep : QList.replace l (start + i) v with
      | none => rw [hrep] at h; cases h
      | some l1 =>
        rw [hrep] at h
        simp only at h
        rw [fetchedReplaceLoop_length items start n (i + 1) l1 l2 h]
        exact QList.replace_length l l1 _ v hrep

/-- The replace loop entered at `i` leaves every slot below `start + i` as it was. -/
theorem fetchedReplaceLoop_below (items : List QVariant) (start : Int) :
    ∀ (n : Nat) (i : Int) (l l2 : List QVariant),
      fetchedReplaceLoop items start n i l = .ok l2 →
      ∀ j : Nat, (j : Int) < start + i → l2[j]? = l[j]?
  | 0, i, l, l2, h, j, _ => by
    unfold fetchedReplaceLoop at h
    cases h
    rfl
  | n + 1, i, l, l2, h, j, hj => by
    unfold fetchedReplaceLoop at h
    cases hat : QList.atIndex items i with
    | none => rw [hat] at h; cases h
    | some v =>
      rw [hat] at h
      simp only at h
      cases hrep : QList.replace l (start + i) v with
      | none => rw [hrep] at h; cases h
      | some l1 =>
        rw [hrep] at h
        simp only at h
        rw [fetchedReplaceLoop_below items start n (i + 1) l1 l2 h j (by omega)]
        unfold QList.replace at hrep
        split at hrep
        · cases hrep
          rw [List.getElem?_set_ne (by omega)]
        · cases hrep

/-- Running the replace loop again on its own result changes nothing. -/
theorem fetchedReplaceLoop_replay (items : List QVariant) (start : Int) :
    ∀ (n : Nat) (i : Int) (l l2 : List QVariant),
      fetchedReplaceLoop items start n i l = .ok l2 →
      fetchedReplaceLoop items start n i l2 = .ok l2
  | 0, i, l, l2, h => by
    unfold fetchedReplaceLoop
    rfl
  | n + 1, i, l, l2, h => by
    have hlen := fetchedReplaceLoop_length items start (n + 1) i l l2 h
    unfold fetchedReplaceLoop at h
    cases hat : QList.atIndex items i with
    | none => rw [hat] at h; cases h
    | some v =>
      rw [hat] at h
      simp only at h
      cases hrep : QList.replace l (start + i) v with
      | none => rw [hrep] at h; cases h
      | some l1 =>
        rw [hrep] at h
        simp only at h
        have hsame := fetchedReplaceLoop_below items start n (i + 1) l1 l2 h
        have ih := fetchedReplaceLoop_replay items start n (i + 1) l1 l2 h
        unfold QList.replace at hrep
        split at hrep
        · rename_i hrange
          cases hrep
          have hk : ((start + i).toNat : Int) < start + (i + 1) := by omega
          have hv : l2[(start + i).toNat]? = some v := by
            rw [hsame _ hk, List.getElem?_set_self (by unfold QList.count at hrange; omega)]
          have hset : l2.set (start + i).toNat v = l2 := by
            apply List.ext_getElem?
            intro m
            by_cases hm : (start + i).toNat = m
            · subst hm
              rw [List.getElem?_set_self (by
                unfold QList.count at hrange; omega), hv]
            · rw [List.getElem?_set_ne hm]
          unfold fetchedReplaceLoop
          rw [hat]
          simp only
          unfold QList.replace
          rw [if_pos (by unfold QList.count at hrange ⊢; omega), hset]
          exact ih
        · cases hrep

/-! ## Data fulfillment: the claims -/

/-- C6: under `FetchMore`, a `dataFetched` notification that passes the identifier filter
and both assertions appends the batch to the item list whatever `start` is, stores
`moreAvailable`, sets the fetched count to the new length and raises exactly one
rows-inserted notification over `[oldLength, oldLength + items.count() - 1]`. -/
theorem onDataFetched_fetchMore_appends (d : QIviPagingModelPrivate) (identifier : QUuid)
    (items : List QVariant) (start : Int) (moreAvailable : Bool)
    (hload : d.m_loadingType = .FetchMore)
    (hid : identifier.isNull = true ∨ (items ≠ [] ∧ identifier = d.m_identifier))
    (hsize : QList.count items ≤ d.m_chunkSize) (hc : d.m_chunkSize ≠ 0)
    (halign : (start + QList.count items - 1).tdiv d.m_chunkSize
      = start.tdiv d.m_chunkSize) :
    onDataFetched d identifier items start moreAvailable
      = .done { d with
          m_moreAvailable := moreAvailable
          m_itemList := d.m_itemList ++ items
          m_fetchedDataCount := QList.count d.m_itemList + QList.count items }
        [.rowsAboutToBeInserted (QList.count d.m_itemList)
            (QList.count d.m_itemList + QList.count items - 1),
          .rowsInserted (QList.count d.m_itemList)
            (QList.count d.m_itemList + QList.count items - 1),
          .countChanged] := by
  unfold onDataFetched
  rw [if_neg (onDataFetched_filter_passes d identifier items hid), if_neg (not_not.mpr hsize),
    if_neg hc, if_neg (not_not.mpr halign)]
  simp only [hload]
  have hcount : QList.count (d.m_itemList ++ items)
      = QList.count d.m_itemList + QList.count items := by
    simp [QList.count]
  rw [hcount]

/-- Witness for C6: two items appended to three under chunk size 30, with `start = 17`. -/
theorem onDataFetched_fetchMore_appends_witness :
    onDataFetched (sampleModel .FetchMore (itemRange 3) []) 7 [.item 100, .item 101] 17 true
      = .done { sampleModel .FetchMore (itemRange 3) [] with
          m_moreAvailable := true
          m_itemList := itemRange 3 ++ [.item 100, .item 101]
          m_fetchedDataCount := 3 + 2 }
        [.rowsAboutToBeInserted 3 (3 + 2 - 1), .rowsInserted 3 (3 + 2 - 1), .countChanged] :=
  onDataFetched_fetchMore_appends (sampleModel .FetchMore (itemRange 3) []) 7
    [.item 100, .item 101] 17 true rfl (Or.inr ⟨by decide, rfl⟩) (by decide) (by decide)
    (by decide)

/-- C7: under `DataChanged`, a `dataFetched` notification that passes the identifier filter
and both assertions, with at least one item, `start >= 0`, `start + n` within the list and
chunk `start / chunkSize` within the tracker, finishes with the items written in order
over `[start, start + n)`, the list length and every other slot unchanged, the bit of
chunk `start / chunkSize` set (every written index lies in that chunk) and exactly one
data-changed notification over `[start, start + n - 1]`. -/
theorem onDataFetched_dataChanged_fulfils (d : QIviPagingModelPrivate) (identifier : QUuid)
    (items : List QVariant) (start : Int) (moreAvailable : Bool)
    (hload : d.m_loadingType = .DataChanged)
    (hid : identifier.isNull = true ∨ (items ≠ [] ∧ identifier = d.m_identifier))
    (hsize : QList.count items ≤ d.m_chunkSize)
    (halign : (start + QList.count items - 1).tdiv d.m_chunkSize = start.tdiv d.m_chunkSize)
    (hn : 1 ≤ QList.count items) (hstart : 0 ≤ start)
    (hcover : start + QList.count items ≤ QList.count d.m_itemList)
    (hbits : start.tdiv d.m_chunkSize < QBitArray.count d.m_availableChunks) :
    ∃ d2, onDataFetched d identifier items start moreAvailable
        = .done d2 [.dataChanged (some start) (some (start + QList.count items - 1))]
      ∧ d2.m_itemList.length = d.m_itemList.length
      ∧ (∀ k : Nat, k < items.length → d2.m_itemList.get? (start.toNat + k) = items.get? k)
      ∧ (∀ j : Nat, j < start.toNat ∨ start.toNat + items.length ≤ j →
          d2.m_itemList.get? j = d.m_itemList.get? j)
      ∧ d2.m_availableChunks.get? (start.tdiv d.m_chunkSize).toNat = some true
      ∧ d2.m_availableChunks.length = d.m_availableChunks.length
      ∧ (∀ i : Int, start ≤ i → i < start + QList.count items →
          i.tdiv d.m_chunkSize = start.tdiv d.m_chunkSize)
      ∧ d2.m_moreAvailable = moreAvailable
      ∧ d2.m_fetchedDataCount = start + QList.count items := by
  have hc : 0 < d.m_chunkSize := by omega
  have hq : 0 ≤ start.tdiv d.m_chunkSize := Int.tdiv_nonneg hstart (le_of_lt hc)
  have hlen : start.toNat + items.length ≤ d.m_itemList.length := by
    unfold QList.count at hcover
    omega
  refine ⟨_, onDataFetched_fulfil d identifier items start moreAvailable hload hid hsize
    halign hn hstart hcover hbits, ?_, ?_, ?_, ?_, ?_, ?_, rfl, rfl⟩
  · simp
    omega
  · intro k hk
    simp only [List.get?_eq_getElem?]
    rw [List.append_assoc, List.getElem?_append_right (by simp)]
    have h1 : start.toNat + k - (List.take start.toNat d.m_itemList).length = k := by
      simp
      omega
    rw [h1, List.getElem?_append_left hk]
  · intro j hj
    simp only [List.get?_eq_getElem?]
    rcases hj with hj | hj
    · rw [List.append_assoc, List.getElem?_append_left (by simp; omega),
        List.getElem?_take_of_lt hj]
    · rw [List.getElem?_append_right (by simp; omega), List.getElem?_drop]
      congr 1
      simp
      omega
  · simp only [List.get?_eq_getElem?]
    rw [List.getElem?_set_self (by unfold QBitArray.count at hbits; omega)]
  · simp
  · intro i h1 h2
    apply le_antisymm
    · rw [← halign]
      exact tdiv_mono_nonneg i _ _ (by omega) (by omega) hc
    · exact tdiv_mono_nonneg start i _ hstart h1 hc

/-- Witness for C7: chunk size 3, seven empty slots, three bits, batch `p,q,r` at 3. -/
theorem onDataFetched_dataChanged_fulfils_witness :
    ∃ d2, onDataFetched
          { sampleModel .DataChanged (List.replicate 7 .invalid) [false, false, false] with
            m_chunkSize := 3 } 0 [.item 1, .item 2, .item 3] 3 true
        = .done d2 [.dataChanged (some 3) (some (3 + 3 - 1))]
      ∧ d2.m_itemList.length = 7
      ∧ (∀ k : Nat, k < 3 → d2.m_itemList.get? (3 + k)
          = [QVariant.item 1, .item 2, .item 3].get? k)
      ∧ (∀ j : Nat, j < 3 ∨ 3 + 3 ≤ j →
          d2.m_itemList.get? j = (List.replicate 7 QVariant.invalid).get? j)
      ∧ d2.m_availableChunks.get? 1 = some true
      ∧ d2.m_availableChunks.length = 3
      ∧ (∀ i : Int, 3 ≤ i → i < 3 + 3 → i.tdiv 3 = (3 : Int).tdiv 3)
      ∧ d2.m_moreAvailable = true
      ∧ d2.m_fetchedDataCount = 3 + 3 :=
  onDataFetched_dataChanged_fulfils
    { sampleModel .DataChanged (List.replicate 7 .invalid) [false, false, false] with
      m_chunkSize := 3 } 0 [.item 1, .item 2, .item 3] 3 true rfl (Or.inl rfl) (by decide)
    (by decide) (by decide) (by decide) (by decide) (by decide)

/-- C8, as stated, fails, in the build with assertions and in the build without. With an
empty list under `DataChanged`, a one-item batch at `start = 0` passes the identifier
filter and both assertions, targets a region the list does not cover, and the handler
returns with `m_moreAvailable` turned from false to true. With three items in the list, a
one-item batch at `start = INT_MAX` passes the filter and both assertions and targets a
region the list does not cover, the `int` sum `start + items.count()` wraps to `INT_MIN`,
the guard lets the batch pass, and the handler has stored `INT_MIN` in
`m_fetchedDataCount` when the replace loop leaves the list at row `INT_MAX`. -/
theorem onDataFetched_uncovered_changes_moreAvailable :
    (∀ asserts, onDataFetchedIn asserts (sampleModel .DataChanged [] []) 7 [.item 1] 0 true
      = .done { sampleModel .DataChanged [] [] with m_moreAvailable := true } [])
    ∧ (sampleModel .DataChanged [] []).m_moreAvailable = false
    ∧ (0 : Int) + QList.count [QVariant.item 1]
        > QList.count (sampleModel .DataChanged [] []).m_itemList
    ∧ (∀ asserts,
      onDataFetchedIn asserts (sampleModel .DataChanged (itemRange 3) [false]) 7 [.item 1]
          2147483647 true
        = .aborted .indexOutOfRange
            { sampleModel .DataChanged (itemRange 3) [false] with
              m_moreAvailable := true, m_fetchedDataCount := -2147483648 } [])
    ∧ (2147483647 : Int) + QList.count [QVariant.item 1]
        > QList.count (sampleModel .DataChanged (itemRange 3) [false]).m_itemList
    ∧ QList.count [QVariant.item 1] ≤ (sampleModel .DataChanged (itemRange 3) [false]).m_chunkSize
    ∧ ((2147483647 : Int) + QList.count [QVariant.item 1] - 1).tdiv
          (sampleModel .DataChanged (itemRange 3) [false]).m_chunkSize
        = (2147483647 : Int).tdiv (sampleModel .DataChanged (itemRange 3) [false]).m_chunkSize := by
  refine ⟨fun asserts => by cases asserts <;> rfl, rfl, by decide,
    fun asserts => by cases asserts <;> rfl, by decide, by decide, by decide⟩

/-- C8, amended: in either build, under `DataChanged`, a `dataFetched` notification that
passes the identifier filter and satisfies both assertions but has `start + n` beyond the
list length, and not above `INT_MAX`, returns with the item list, the availability bits
and the fetched count unchanged and no signal raised; `m_moreAvailable` holds the
notification's flag. -/
theorem onDataFetched_uncovered_discarded (asserts : Bool) (d : QIviPagingModelPrivate)
    (identifier : QUuid) (items : List QVariant) (start : Int) (moreAvailable : Bool)
    (hload : d.m_loadingType = .DataChanged)
    (hid : identifier.isNull = true ∨ (items ≠ [] ∧ identifier = d.m_identifier))
    (hsize : QList.count items ≤ d.m_chunkSize) (hc : d.m_chunkSize ≠ 0)
    (halign : (start + QList.count items - 1).tdiv d.m_chunkSize = start.tdiv d.m_chunkSize)
    (hbeyond : start + QList.count items > QList.count d.m_itemList)
    (hrange : start + QList.count items ≤ 2147483647) :
    onDataFetchedIn asserts d identifier items start moreAvailable
      = .done { d with m_moreAvailable := moreAvailable } [] := by
  have hlist : 0 ≤ QList.count d.m_itemList := by
    unfold QList.count
    omega
  have hsum : wrapInt (start + QList.count items) = start + QList.count items :=
    wrapInt_of_inIntRange _ ⟨by omega, hrange⟩
  have hlast : wrapInt (start + QList.count items - 1) = start + QList.count items - 1 :=
    wrapInt_of_inIntRange _ ⟨by omega, by omega⟩
  unfold onDataFetchedIn
  rw [hsum, hlast, if_neg (onDataFetched_filter_passes d identifier items hid),
    if_neg (fun h => h.2 hsize), if_neg (fun h => hc h.2), if_neg (fun h => h.2 halign)]
  simp only [hload]
  rw [if_pos hbeyond]

/-- Witness for C8 amended: a two-item batch at `start = 2` on a list of three items, in
the build with assertions and in the build without. -/
theorem onDataFetched_uncovered_discarded_witness :
    onDataFetchedIn true (sampleModel .DataChanged (itemRange 3) [false]) 0
        [.item 100, .item 101] 2 true
      = .done { sampleModel .DataChanged (itemRange 3) [false] with m_moreAvailable := true }
          []
    ∧ onDataFetchedIn false (sampleModel .DataChanged (itemRange 3) [false]) 0
        [.item 100, .item 101] 2 true
      = .done { sampleModel .DataChanged (itemRange 3) [false] with m_moreAvailable := true }
          [] :=
  ⟨onDataFetched_uncovered_discarded true (sampleModel .DataChanged (itemRange 3) [false]) 0
      [.item 100, .item 101] 2 true rfl (Or.inl rfl) (by decide) (by decide) (by decide)
      (by decide) (by decide),
    onDataFetched_uncovered_discarded false (sampleModel .DataChanged (itemRange 3) [false]) 0
      [.item 100, .item 101] 2 true rfl (Or.inl rfl) (by decide) (by decide) (by decide)
      (by decide) (by decide)⟩

/-- C9, as stated, fails. The two `Q_ASSERT` lines are the only alignment check of the
handler and neither has a rejecting path. In the build without assertions, on the
reachable object with forty empty slots and two unset bits, chunk size 30, the five-item
batch at `start = 29`, which straddles chunks 0 and 1 and carries the object's
identifier, is written: rows 29 to 33 hold the items, bit 0 is set, the fetched count is
34 and `dataChanged(29, 33)` is raised. -/
theorem onDataFetched_straddle_written_without_asserts :
    ReachableIn false anyOp
      { sampleModel .DataChanged (List.replicate 40 .invalid) [false, false] with
        m_capabilities := SupportsGetSize }
    ∧ ((29 : Int) + ((itemRange 5).length : Int) - 1) / 30 ≠ (29 : Int) / 30
    ∧ onDataFetchedIn false
        { sampleModel .DataChanged (List.replicate 40 .invalid) [false, false] with
          m_capabilities := SupportsGetSize } 7 (itemRange 5) 29 true
      = .done
          { sampleModel .DataChanged
              (List.replicate 29 .invalid ++ itemRange 5 ++ List.replicate 6 .invalid)
              [true, false] with
            m_capabilities := SupportsGetSize, m_moreAvailable := true,
            m_fetchedDataCount := 34 }
          [.dataChanged (some 29) (some 33)] :=
  ⟨reachableIn_mono false keepsBits anyOp (fun _ _ _ => trivial) _
      (reachableIn_forty_slots false), by decide, by rfl⟩

/-- C9, amended: in the build with assertions, with a positive chunk size, `start >= 0`
and a batch of `n >= 1` items such that `(start + n - 1) / chunkSize` differs from
`start / chunkSize`, the sum `start + n - 1` not above `INT_MAX`, a `dataFetched`
notification that passes the identifier filter fails an assertion of `onDataFetched`,
which ends the process; nothing has been written by then and no signal raised. -/
theorem onDataFetched_straddle_fails_assertion (d : QIviPagingModelPrivate)
    (identifier : QUuid) (items : List QVariant) (start : Int) (moreAvailable : Bool)
    (hid : identifier.isNull = true ∨ (items ≠ [] ∧ identifier = d.m_identifier))
    (hc : 0 < d.m_chunkSize) (hstart : 0 ≤ start) (hn : 1 ≤ items.length)
    (hstraddle : (start + (items.length : Int) - 1) / d.m_chunkSize ≠ start / d.m_chunkSize)
    (hrange : start + (items.length : Int) - 1 ≤ 2147483647) :
    onDataFetchedIn true d identifier items start moreAvailable
      = .aborted .assertFailed d [] := by
  have hlast : wrapInt (wrapInt (start + QList.count items) - 1)
      = start + QList.count items - 1 := by
    unfold wrapInt QList.count
    omega
  unfold onDataFetchedIn
  rw [hlast, if_neg (onDataFetched_filter_passes d identifier items hid)]
  by_cases hsize : QList.count items ≤ d.m_chunkSize
  · have h : (start + QList.count items - 1).tdiv d.m_chunkSize
        ≠ start.tdiv d.m_chunkSize := by
      unfold QList.count
      rw [Int.tdiv_eq_ediv (by omega) (le_of_lt hc), Int.tdiv_eq_ediv hstart (le_of_lt hc)]
      exact hstraddle
    rw [if_neg (fun h2 => h2.2 hsize), if_neg (fun h2 => ne_of_gt hc h2.2), if_pos ⟨rfl, h⟩]
  · rw [if_pos ⟨rfl, hsize⟩]

/-- Witness for C9 amended: `start = 29`, chunk size 30, five items. -/
theorem onDataFetched_straddle_fails_assertion_witness :
    onDataFetchedIn true
        (sampleModel .DataChanged (List.replicate 40 .invalid) [false, false]) 7
        (itemRange 5) 29 true
      = .aborted .assertFailed
          (sampleModel .DataChanged (List.replicate 40 .invalid) [false, false]) [] :=
  onDataFetched_straddle_fails_assertion
    (sampleModel .DataChanged (List.replicate 40 .invalid) [false, false]) 7 (itemRange 5) 29
    true (Or.inr ⟨by decide, rfl⟩) (by decide) (by decide) (by decide) (by decide)
    (by decide)

/-- C10: under `DataChanged`, a `dataFetched` notification that passes every check with a
non-empty batch inside the list and the tracker is handled to the end, and whenever a
`dataFetched` notification has been handled to the end, handling the same notification
again on the resulting object ends in exactly that object with the same signals; the
length of the item list is the one before the first handling. -/
theorem onDataFetched_replay_idempotent (d : QIviPagingModelPrivate) (identifier : QUuid)
    (items : List QVariant) (start : Int) (moreAvailable : Bool)
    (hload : d.m_loadingType = .DataChanged) :
    ((identifier.isNull = true ∨ (items ≠ [] ∧ identifier = d.m_identifier)) →
      QList.count items ≤ d.m_chunkSize →
      (start + QList.count items - 1).tdiv d.m_chunkSize = start.tdiv d.m_chunkSize →
      1 ≤ QList.count items → 0 ≤ start →
      start + QList.count items ≤ QList.count d.m_itemList →
      start.tdiv d.m_chunkSize < QBitArray.count d.m_availableChunks →
      ∃ d1 out, onDataFetched d identifier items start moreAvailable = .done d1 out)
    ∧ (∀ d1 out, onDataFetched d identifier items start moreAvailable = .done d1 out →
        onDataFetched d1 identifier items start moreAvailable = .done d1 out
        ∧ d1.m_itemList.length = d.m_itemList.length
        ∧ d1.m_availableChunks.length = d.m_availableChunks.length) := by
  constructor
  · intro hid hsize halign hn hstart hcover hbits
    exact ⟨_, _, onDataFetched_fulfil d identifier items start moreAvailable hload hid hsize
      halign hn hstart hcover hbits⟩
  · intro d1 out h1
    unfold onDataFetched at h1
    by_cases hf : ¬ identifier.isNull
        ∧ (QList.count items = 0 ∨ identifier ≠ d.m_identifier)
    · rw [if_pos hf] at h1
      cases h1
      refine ⟨?_, rfl, rfl⟩
      unfold onDataFetched
      rw [if_pos hf]
    rw [if_neg hf] at h1
    by_cases hsize : ¬ QList.count items ≤ d.m_chunkSize
    · rw [if_pos hsize] at h1
      cases h1
    rw [if_neg hsize] at h1
    by_cases hc : d.m_chunkSize = 0
    · rw [if_pos hc] at h1
      cases h1
    rw [if_neg hc] at h1
    by_cases halign : (start + QList.count items - 1).tdiv d.m_chunkSize
        ≠ start.tdiv d.m_chunkSize
    · rw [if_pos halign] at h1
      cases h1
    rw [if_neg halign] at h1
    simp only [hload] at h1
    by_cases hguard : QList.count d.m_itemList < start + QList.count items
        ∨ QBitArray.count d.m_availableChunks < (start + QList.count items).tdiv d.m_chunkSize
    · rw [if_pos hguard] at h1
      cases h1
      refine ⟨?_, rfl, rfl⟩
      unfold onDataFetched
      dsimp only
      rw [if_neg hf, if_neg hsize, if_neg hc, if_neg halign, if_pos hguard]
    rw [if_neg hguard] at h1
    cases hloop : fetchedReplaceLoop items start items.length 0 d.m_itemList with
    | fault why l => rw [hloop] at h1; cases h1
    | ok l =>
      rw [hloop] at h1
      simp only at h1
      have hlen := fetchedReplaceLoop_length items start _ _ _ _ hloop
      have hagain := fetchedReplaceLoop_replay items start _ _ _ _ hloop
      cases hset : QBitArray.setBit d.m_availableChunks (start.tdiv d.m_chunkSize) with
      | none => rw [hset] at h1; cases h1
      | some bits =>
        rw [hset] at h1
        simp only at h1
        unfold QBitArray.setBit at hset
        split at hset
        · rename_i hrange
          cases hset
          cases h1
          refine ⟨?_, hlen, by simp⟩
          have hguard2 : ¬ (QList.count l < start + QList.count items
              ∨ QBitArray.count (d.m_availableChunks.set
                  (start.tdiv d.m_chunkSize).toNat true)
                < (start + QList.count items).tdiv d.m_chunkSize) := by
            unfold QList.count QBitArray.count at hguard ⊢
            rw [hlen, List.length_set]
            exact hguard
          have hrange2 : 0 ≤ start.tdiv d.m_chunkSize ∧ start.tdiv d.m_chunkSize
              < QBitArray.count (d.m_availableChunks.set
                  (start.tdiv d.m_chunkSize).toNat true) := by
            unfold QBitArray.count at hrange ⊢
            rw [List.length_set]
            exact hrange
          unfold onDataFetched
          dsimp only
          rw [if_neg hf, if_neg hsize, if_neg hc, if_neg halign, if_neg hguard2, hagain]
          simp only [QBitArray.setBit]
          rw [if_pos hrange2]
          simp [index]
        · cases hset

/-- Witness for C10: chunk size 3, seven slots, three bits, batch `p,q,r` at 3, replayed on
the object the first handling produced. -/
theorem onDataFetched_replay_idempotent_witness :
    ∃ d1 out,
      onDataFetched
          { sampleModel .DataChanged (List.replicate 7 .invalid) [false, false, false] with
            m_chunkSize := 3 } 7 [.item 1, .item 2, .item 3] 3 true = .done d1 out
      ∧ onDataFetched d1 7 [.item 1, .item 2, .item 3] 3 true = .done d1 out
      ∧ d1.m_itemList.length = 7
      ∧ d1.m_availableChunks.length = 3 :=
  ⟨_, _, rfl,
    (onDataFetched_replay_idempotent
      { sampleModel .DataChanged (List.replicate 7 .invalid) [false, false, false] with
        m_chunkSize := 3 } 7 [.item 1, .item 2, .item 3] 3 true rfl).2 _ _ rfl⟩

/-! ## Reads and fetch requests -/

/-- What `fetchData` does when it runs to its end: nothing without a backend; with one,
`m_moreAvailable` is cleared, the bit of the chunk holding the start row is set when the
tracker has it, and one request for `m_chunkSize` rows is sent to the backend. -/
theorem fetchData_done (d d1 : QIviPagingModelPrivate) (startIndex : Int) (out : List Signal)
    (h : fetchData d startIndex = .done d1 out) :
    (d.hasBackend = false ∧ d1 = d ∧ out = [])
    ∨ (d.hasBackend = true ∧ d.m_chunkSize ≠ 0
      ∧ out = [.backendFetchData d.m_identifier
          (if startIndex ≥ 0 then startIndex else d.m_fetchedDataCount) d.m_chunkSize]
      ∧ ∃ bits, d1 = { d with m_moreAvailable := false, m_availableChunks := bits }
        ∧ ((bits = d.m_availableChunks
            ∧ QBitArray.count d.m_availableChunks
              ≤ (if startIndex ≥ 0 then startIndex else d.m_fetchedDataCount).tdiv
                  d.m_chunkSize)
          ∨ (0 ≤ (if startIndex ≥ 0 then startIndex else d.m_fetchedDataCount).tdiv
                d.m_chunkSize
            ∧ (if startIndex ≥ 0 then startIndex else d.m_fetchedDataCount).tdiv
                d.m_chunkSize < QBitArray.count d.m_availableChunks
            ∧ bits = d.m_availableChunks.set
                ((if startIndex ≥ 0 then startIndex else d.m_fetchedDataCount).tdiv
                  d.m_chunkSize).toNat true))) := by
  unfold fetchData at h
  dsimp only at h
  generalize (if startIndex ≥ 0 then startIndex else d.m_fetchedDataCount) = start at h ⊢
  by_cases hb : d.hasBackend = true
  case neg =>
    left
    rw [if_pos hb] at h
    cases h
    exact ⟨by simpa using hb, rfl, rfl⟩
  case pos =>
    right
    rw [if_neg (not_not.mpr hb)] at h
    by_cases hc : d.m_chunkSize = 0
    · rw [if_pos hc] at h
      cases h
    rw [if_neg hc] at h
    refine ⟨hb, hc, ?_⟩
    by_cases hlt : start.tdiv d.m_chunkSize < QBitArray.count d.m_availableChunks
    · rw [if_pos hlt] at h
      unfold QBitArray.setBit at h
      by_cases hr : 0 ≤ start.tdiv d.m_chunkSize
          ∧ start.tdiv d.m_chunkSize < QBitArray.count d.m_availableChunks
      · rw [if_pos hr] at h
        cases h
        exact ⟨rfl, _, rfl, Or.inr ⟨hr.1, hr.2, rfl⟩⟩
      · rw [if_neg hr] at h
        cases h
    · rw [if_neg hlt] at h
      cases h
      exact ⟨rfl, _, rfl, Or.inl ⟨rfl, not_lt.mp hlt⟩⟩

/-- With a backend, a non-zero chunk size and a start row whose chunk index is not
negative, `fetchData` runs to its end and sends one request. -/
theorem fetchData_sends (d : QIviPagingModelPrivate) (startIndex start : Int)
    (hstart : start = if startIndex ≥ 0 then startIndex else d.m_fetchedDataCount)
    (hb : d.hasBackend = true) (hc : d.m_chunkSize ≠ 0)
    (hk : 0 ≤ start.tdiv d.m_chunkSize) :
    fetchData d startIndex
      = .done { d with
          m_moreAvailable := false
          m_availableChunks :=
            if start.tdiv d.m_chunkSize < QBitArray.count d.m_availableChunks then
              d.m_availableChunks.set (start.tdiv d.m_chunkSize).toNat true
            else d.m_availableChunks }
        [.backendFetchData d.m_identifier start d.m_chunkSize] := by
  unfold fetchData
  dsimp only
  rw [← hstart, if_neg (not_not.mpr hb), if_neg hc]
  by_cases hlt : start.tdiv d.m_chunkSize < QBitArray.count d.m_availableChunks
  · rw [if_pos hlt, if_pos hlt]
    unfold QBitArray.setBit
    rw [if_pos ⟨hk, hlt⟩]
  · rw [if_neg hlt, if_neg hlt]

/-- A valid row is found in the item list. -/
theorem QList.atIndex_of_valid {α : Type} (l : List α) (i : Int) (h0 : 0 ≤ i)
    (h1 : i < QList.count l) : ∃ v, QList.atIndex l i = some v ∧ l.get? i.toNat = some v := by
  unfold QList.atIndex
  rw [if_pos ⟨h0, h1⟩]
  have hlt : i.toNat < l.length := by
    unfold QList.count at h1
    omega
  exact ⟨l[i.toNat], by simp [List.getElem?_eq_getElem hlt], by
    simp [List.getElem?_eq_getElem hlt]⟩

/-- Under `FetchMore`, with a backend, a positive chunk size and a fetched count that is
not negative, a read of a valid row `i` for which the threshold test of `data()` holds
while `m_moreAvailable` is set raises `fetchMoreThresholdReached` and sends exactly one
request `fetchData(m_identifier, m_fetchedDataCount, m_chunkSize)`, leaving
`m_moreAvailable` cleared; any other read of a valid row raises nothing and leaves the
object as it was. Both return the item of the row. -/
theorem get_fetchMore_reads (d : QIviPagingModelPrivate) (i : Int)
    (hload : d.m_loadingType = .FetchMore) (hb : d.hasBackend = true)
    (hc : 0 < d.m_chunkSize) (hi0 : 0 ≤ i) (hi1 : i < QList.count d.m_itemList)
    (hcount : 0 ≤ d.m_fetchedDataCount) :
    (i ≥ wrapInt (d.m_fetchedDataCount - d.m_fetchMoreThreshold) ∧ d.m_moreAvailable = true →
      ∃ v, d.m_itemList.get? i.toNat = some v
        ∧ d.get i = .returned v
            { d with
              m_moreAvailable := false
              m_availableChunks :=
                if d.m_fetchedDataCount.tdiv d.m_chunkSize
                    < QBitArray.count d.m_availableChunks then
                  d.m_availableChunks.set (d.m_fetchedDataCount.tdiv d.m_chunkSize).toNat true
                else d.m_availableChunks }
            [.fetchMoreThresholdReached,
              .backendFetchData d.m_identifier d.m_fetchedDataCount d.m_chunkSize])
    ∧ (¬ (i ≥ wrapInt (d.m_fetchedDataCount - d.m_fetchMoreThreshold) ∧ d.m_moreAvailable = true) →
      ∃ v, d.m_itemList.get? i.toNat = some v ∧ d.get i = .returned v d []) := by
  obtain ⟨v, hv, hget⟩ := QList.atIndex_of_valid d.m_itemList i hi0 hi1
  have hrange : ¬ (i ≥ QList.count d.m_itemList ∨ i < 0) := by omega
  constructor
  · rintro ⟨hthr, hmore⟩
    refine ⟨v, hget, ?_⟩
    have hsend := fetchData_sends { d with m_moreAvailable := false } (-1)
      d.m_fetchedDataCount (by simp) hb (ne_of_gt hc)
      (Int.tdiv_nonneg hcount (le_of_lt hc))
    dsimp only at hsend
    unfold QIviPagingModelPrivate.get index
    rw [if_pos ⟨hi0, hi1⟩]
    unfold data
    dsimp only
    rw [if_neg hrange, if_neg (ne_of_gt hc)]
    simp only [hload, canFetchMore, Option.isSome_none, Bool.false_eq_true, if_false]
    rw [if_pos ⟨hthr, hmore⟩]
    unfold onFetchMoreThresholdReached fetchMore
    simp only [Option.isSome_none, Bool.false_eq_true, if_false]
    rw [if_neg (by simp [hb, hmore]), hsend]
    simp only [Outcome.withEarlier, hv, List.singleton_append, hload]
  · intro hno
    refine ⟨v, hget, ?_⟩
    unfold QIviPagingModelPrivate.get index
    rw [if_pos ⟨hi0, hi1⟩]
    unfold data
    dsimp only
    rw [if_neg hrange, if_neg (ne_of_gt hc)]
    simp only [hload, canFetchMore, Option.isSome_none, Bool.false_eq_true, if_false]
    rw [if_neg hno]
    simp only [hv]

/-- C12, as stated, fails: on an empty list under `FetchMore`, with a backend, chunk size
2, fetched count 0 and `m_moreAvailable` set, the read `get(0)` returns the invalid
variant, sends no request and leaves the object as it was. -/
theorem get_on_empty_list_sends_nothing :
    QIviPagingModelPrivate.get
        { sampleModel .FetchMore [] [] with m_chunkSize := 2, m_moreAvailable := true } 0
      = .returned .invalid
          { sampleModel .FetchMore [] [] with m_chunkSize := 2, m_moreAvailable := true }
          [] := by
  rfl

/-- C12, amended: under `FetchMore`, with a backend, an empty list, fetched count 0 and
`m_moreAvailable` set, the read `get(0)` returns the invalid variant, sends no request
and leaves the object as it was; it is `fetchMore()` that, for a non-zero chunk size,
sends the first request `fetchData(m_identifier, 0, m_chunkSize)` and clears
`m_moreAvailable`. -/
theorem first_fetch_comes_from_fetchMore (d : QIviPagingModelPrivate)
    (hload : d.m_loadingType = .FetchMore) (hb : d.hasBackend = true)
    (hempty : d.m_itemList = []) (hcount : d.m_fetchedDataCount = 0)
    (hmore : d.m_moreAvailable = true) :
    d.get 0 = .returned .invalid d []
    ∧ (d.m_chunkSize ≠ 0 →
      ∃ d2, d.fetchMore none = .done d2 [.backendFetchData d.m_identifier 0 d.m_chunkSize]
        ∧ d2.m_moreAvailable = false ∧ d2.m_itemList = []
        ∧ d2.m_fetchedDataCount = 0 ∧ d2.m_loadingType = .FetchMore) := by
  constructor
  · unfold QIviPagingModelPrivate.get index
    rw [if_neg (by simp [hempty, QList.count])]
    rfl
  · intro hc
    have hsend := fetchData_sends { d with m_moreAvailable := false } (-1) 0
      (by simp [hcount]) hb hc (by simp)
    unfold fetchMore
    simp only [Option.isSome_none, Bool.false_eq_true, if_false]
    rw [if_neg (by simp [hb, hmore]), hsend]
    exact ⟨_, rfl, rfl, hempty, hcount, hload⟩

/-- Witness for C12 amended: the empty model of the claim, chunk size 2. -/
theorem first_fetch_comes_from_fetchMore_witness :
    QIviPagingModelPrivate.get
        { sampleModel .FetchMore [] [] with m_chunkSize := 2, m_moreAvailable := true } 0
      = .returned .invalid
          { sampleModel .FetchMore [] [] with m_chunkSize := 2, m_moreAvailable := true } []
    ∧ ((2 : Int) ≠ 0 →
      ∃ d2, fetchMore
            { sampleModel .FetchMore [] [] with m_chunkSize := 2, m_moreAvailable := true }
            none = .done d2 [.backendFetchData 7 0 2]
        ∧ d2.m_moreAvailable = false ∧ d2.m_itemList = []
        ∧ d2.m_fetchedDataCount = 0 ∧ d2.m_loadingType = .FetchMore) :=
  first_fetch_comes_from_fetchMore
    { sampleModel .FetchMore [] [] with m_chunkSize := 2, m_moreAvailable := true }
    rfl rfl rfl rfl rfl

/-- C13: under `DataChanged`, with a backend and a positive chunk size, a read of a valid
row `i` whose chunk `k = i / m_chunkSize` is tracked with its bit unset returns the
invalid variant, sets bit `k` and sends exactly one request
`fetchData(m_identifier, k * m_chunkSize, m_chunkSize)`; the requested rows hold `i`. -/
theorem get_dataChanged_cache_miss (d : QIviPagingModelPrivate) (i : Int)
    (hload : d.m_loadingType = .DataChanged) (hb : d.hasBackend = true)
    (hc : 0 < d.m_chunkSize) (hi0 : 0 ≤ i) (hi1 : i < QList.count d.m_itemList)
    (hk : i / d.m_chunkSize < QBitArray.count d.m_availableChunks)
    (hbit : QBitArray.atIndex d.m_availableChunks (i / d.m_chunkSize) = some false) :
    d.get i = .returned .invalid
        { d with
          m_moreAvailable := false
          m_availableChunks := d.m_availableChunks.set (i / d.m_chunkSize).toNat true }
        [.backendFetchData d.m_identifier (i / d.m_chunkSize * d.m_chunkSize) d.m_chunkSize]
    ∧ i / d.m_chunkSize * d.m_chunkSize ≤ i
    ∧ i < i / d.m_chunkSize * d.m_chunkSize + d.m_chunkSize := by
  have hrange : ¬ (i ≥ QList.count d.m_itemList ∨ i < 0) := by omega
  have hq : i.tdiv d.m_chunkSize = i / d.m_chunkSize := Int.tdiv_eq_ediv hi0 (le_of_lt hc)
  have hq0 : 0 ≤ i / d.m_chunkSize := Int.ediv_nonneg hi0 (le_of_lt hc)
  have hmul : (i / d.m_chunkSize * d.m_chunkSize).tdiv d.m_chunkSize = i / d.m_chunkSize :=
    Int.mul_tdiv_cancel _ (ne_of_gt hc)
  have hpos : 0 ≤ i / d.m_chunkSize * d.m_chunkSize := Int.mul_nonneg hq0 (le_of_lt hc)
  refine ⟨?_, ?_, ?_⟩
  · have hsend := fetchData_sends d (i / d.m_chunkSize * d.m_chunkSize)
      (i / d.m_chunkSize * d.m_chunkSize) (by rw [if_pos hpos]) hb (ne_of_gt hc)
      (by rw [hmul]; exact hq0)
    rw [hmul, if_pos hk] at hsend
    unfold QIviPagingModelPrivate.get index
    rw [if_pos ⟨hi0, hi1⟩]
    unfold data
    dsimp only
    rw [if_neg hrange, if_neg (ne_of_gt hc), hq]
    simp only [hload, hbit, Option.map, Bool.not_false]
    rw [hsend]
    simp only [hload]
  · have := Int.ediv_add_emod i d.m_chunkSize
    have := Int.emod_nonneg i (ne_of_gt hc)
    rw [mul_comm]
    omega
  · have := Int.ediv_add_emod i d.m_chunkSize
    have := Int.emod_lt_of_pos i hc
    rw [mul_comm]
    omega

/-- Witness for C13: chunk size 3, seven empty slots, three unset bits, read of row 4. -/
theorem get_dataChanged_cache_miss_witness :
    QIviPagingModelPrivate.get
        { sampleModel .DataChanged (List.replicate 7 .invalid) [false, false, false] with
          m_chunkSize := 3 } 4
      = .returned .invalid
        { sampleModel .DataChanged (List.replicate 7 .invalid) [false, false, false] with
          m_chunkSize := 3
          m_moreAvailable := false
          m_availableChunks := [false, false, false].set ((4 : Int) / 3).toNat true }
        [.backendFetchData 7 ((4 : Int) / 3 * 3) 3]
    ∧ (4 : Int) / 3 * 3 ≤ 4 ∧ (4 : Int) < 4 / 3 * 3 + 3 :=
  get_dataChanged_cache_miss
    { sampleModel .DataChanged (List.replicate 7 .invalid) [false, false, false] with
      m_chunkSize := 3 } 4 rfl rfl (by decide) (by decide) (by decide) (by decide)
    (by decide)

/-! ## Size reports (`onCountChanged`) -/

/-- C15: evaluation of `onCountChanged` under `DataChanged` on a list of three empty
slots with the report `new_length = 7` under the object's own identifier: the report is
not ignored (`3 != 7`), seven slots are appended and the list ends with ten slots, not
seven. -/
theorem onCountChanged_appends_to_existing_rows :
    ∃ d2 out,
      onCountChanged (sampleModel .DataChanged (List.replicate 3 .invalid) [false]) 7 7
        = .done d2 out
      ∧ d2.m_itemList = List.replicate 10 .invalid
      ∧ QList.count d2.m_itemList ≠ 7 := by
  refine ⟨_, _, rfl, rfl, by decide⟩

/-- C16, as stated, fails: with chunk size 3, the report `new_length = 6` on an empty
`DataChanged` object gives six empty slots and three unset bits, one more than
`ceil(6 / 3) = 2`. -/
theorem onCountChanged_tracker_has_spare_bit :
    onCountChanged { sampleModel .DataChanged [] [] with m_chunkSize := 3 } 7 6
      = .done { sampleModel .DataChanged (List.replicate 6 .invalid) [false, false, false]
          with m_chunkSize := 3 }
          [.rowsAboutToBeInserted 0 5, .rowsInserted 0 5, .countChanged]
    ∧ QBitArray.count [false, false, false] ≠ (6 + 3 - 1) / 3 := by
  refine ⟨rfl, by decide⟩

/-- C16, amended: with a positive chunk size `c` and `n >= 0`, a count report that is not
ignored (null identifier, or the object's own with `n != 0`), applied under `DataChanged`
to an empty list and an empty tracker, gives exactly `n` empty slots and exactly
`n / c + 1` bits, all unset, and one rows-inserted notification over `[0, n - 1]`; the
number of bits is `ceil(n / c)` when `c` does not divide `n` and one more when it
does. -/
theorem onCountChanged_first_report (d : QIviPagingModelPrivate) (identifier : QUuid)
    (n : Int) (hload : d.m_loadingType = .DataChanged) (hc : 0 < d.m_chunkSize)
    (hn : 0 ≤ n) (hlist : d.m_itemList = []) (hbits : d.m_availableChunks = [])
    (hid : identifier.isNull = true ∨ (identifier = d.m_identifier ∧ n ≠ 0)) :
    onCountChanged d identifier n
      = .done { d with
          m_itemList := List.replicate n.toNat .invalid
          m_availableChunks := List.replicate (n / d.m_chunkSize + 1).toNat false }
        [.rowsAboutToBeInserted 0 (n - 1), .rowsInserted 0 (n - 1), .countChanged]
    ∧ (n % d.m_chunkSize ≠ 0 → n / d.m_chunkSize + 1 = (n + d.m_chunkSize - 1) / d.m_chunkSize)
    ∧ (n % d.m_chunkSize = 0 →
        n / d.m_chunkSize + 1 = (n + d.m_chunkSize - 1) / d.m_chunkSize + 1) := by
  have hq : n.tdiv d.m_chunkSize = n / d.m_chunkSize := Int.tdiv_eq_ediv hn (le_of_lt hc)
  have hq0 : 0 ≤ n / d.m_chunkSize := Int.ediv_nonneg hn (le_of_lt hc)
  have hfilter : ¬ (¬ identifier.isNull ∧ (identifier ≠ d.m_identifier
      ∨ d.m_loadingType ≠ .DataChanged ∨ QList.count d.m_itemList = n)) := by
    rintro ⟨h1, h2⟩
    rcases hid with h | ⟨he, hne⟩
    · exact h1 h
    · rcases h2 with h2 | h2 | h2
      · exact h2 he
      · exact h2 hload
      · rw [hlist] at h2
        exact hne h2.symm
  have hdiv := Int.ediv_add_emod n d.m_chunkSize
  have hmod0 := Int.emod_nonneg n (ne_of_gt hc)
  have hmod1 := Int.emod_lt_of_pos n hc
  refine ⟨?_, ?_, ?_⟩
  · unfold onCountChanged
    rw [if_neg hfilter]
    dsimp only
    rw [if_neg (ne_of_gt hc), hq]
    unfold QBitArray.resize
    rw [if_neg (by omega)]
    simp [hlist, hbits, QList.count]
  · intro hm
    have h1 : n + d.m_chunkSize - 1
        = (n % d.m_chunkSize - 1) + d.m_chunkSize * (n / d.m_chunkSize + 1) := by
      rw [mul_add, mul_one]
      omega
    have hz : (n % d.m_chunkSize - 1) / d.m_chunkSize = 0 :=
      Int.ediv_eq_zero_of_lt (by omega) (by omega)
    rw [h1, Int.add_mul_ediv_left _ _ (ne_of_gt hc), hz]
    omega
  · intro hm
    have h1 : n + d.m_chunkSize - 1
        = (d.m_chunkSize - 1) + d.m_chunkSize * (n / d.m_chunkSize) := by
      omega
    have hz : (d.m_chunkSize - 1) / d.m_chunkSize = 0 :=
      Int.ediv_eq_zero_of_lt (by omega) (by omega)
    rw [h1, Int.add_mul_ediv_left _ _ (ne_of_gt hc), hz]
    omega

/-- Witness for C16 amended: chunk size 3 and `n = 7` give seven slots and three bits. -/
theorem onCountChanged_first_report_witness :
    onCountChanged { sampleModel .DataChanged [] [] with m_chunkSize := 3 } 7 7
      = .done { sampleModel .DataChanged [] [] with
          m_chunkSize := 3
          m_itemList := List.replicate (7 : Int).toNat .invalid
          m_availableChunks := List.replicate ((7 : Int) / 3 + 1).toNat false }
        [.rowsAboutToBeInserted 0 (7 - 1), .rowsInserted 0 (7 - 1), .countChanged]
    ∧ ((7 : Int) % 3 ≠ 0 → (7 : Int) / 3 + 1 = (7 + 3 - 1) / 3)
    ∧ ((7 : Int) % 3 = 0 → (7 : Int) / 3 + 1 = (7 + 3 - 1) / 3 + 1) :=
  onCountChanged_first_report { sampleModel .DataChanged [] [] with m_chunkSize := 3 } 7 7
    rfl (by decide) (by decide) rfl rfl (Or.inr ⟨rfl, by decide⟩)

/-! ## Reset -/

/-- C20: for a positive chunk size, `reload()` empties the item list and the tracker,
sets the fetched count to 0 and raises the model-reset notification; with a backend it
then sends exactly one request `fetchData(m_identifier, 0, m_chunkSize)` and leaves
`m_moreAvailable` cleared, without a backend it sends nothing and leaves
`m_moreAvailable` set. -/
theorem reload_resets_and_fetches_once (d : QIviPagingModelPrivate)
    (hc : 0 < d.m_chunkSize) :
    (d.hasBackend = true →
      d.reload = .done { d with
          m_itemList := []
          m_availableChunks := []
          m_fetchedDataCount := 0
          m_moreAvailable := false }
        [.modelAboutToBeReset, .modelReset, .countChanged,
          .backendFetchData d.m_identifier 0 d.m_chunkSize])
    ∧ (d.hasBackend = false →
      d.reload = .done { d with
          m_itemList := []
          m_availableChunks := []
          m_fetchedDataCount := 0
          m_moreAvailable := true }
        [.modelAboutToBeReset, .modelReset, .countChanged]) := by
  constructor
  · intro hb
    have hsend := fetchData_sends
      { d with m_itemList := [], m_availableChunks := [], m_fetchedDataCount := 0,
               m_moreAvailable := false } (-1) 0 (by simp) hb (ne_of_gt hc) (by simp)
    dsimp only at hsend
    rw [if_neg (by simp [QBitArray.count])] at hsend
    unfold reload resetModel fetchMore
    simp only [Option.isSome_none, Bool.false_eq_true, if_false]
    rw [if_neg (by simp [hb]), hsend]
    rfl
  · intro hb
    unfold reload resetModel fetchMore
    simp only [Option.isSome_none, Bool.false_eq_true, if_false]
    rw [if_pos (by simp [hb])]
    rfl

/-- Witness for C20: a `DataChanged` object with seven slots and a backend. -/
theorem reload_resets_and_fetches_once_witness :
    reload (sampleModel .DataChanged (List.replicate 7 .invalid) [false])
      = .done (sampleModel .DataChanged [] [])
          [.modelAboutToBeReset, .modelReset, .countChanged, .backendFetchData 7 0 30] :=
  (reload_resets_and_fetches_once (sampleModel .DataChanged (List.replicate 7 .invalid)
    [false]) (by decide)).1 rfl

/-! ## What a fetch request leaves behind -/

theorem QBitArray.atIndex_set_of_true (b : List Bool) (m : Nat) (k : Int)
    (h : QBitArray.atIndex b k = some true) :
    QBitArray.atIndex (b.set m true) k = some true := by
  unfold QBitArray.atIndex QBitArray.count at h ⊢
  rw [List.length_set]
  split at h
  · rename_i hr
    rw [if_pos hr]
    rw [List.get?_eq_getElem?] at h ⊢
    by_cases hm : m = k.toNat
    · subst hm
      rw [List.getElem?_set_self (by omega)]
    · rw [List.getElem?_set_ne hm]
      exact h
  · cases h

theorem QBitArray.atIndex_set_self (b : List Bool) (k : Int) (h0 : 0 ≤ k)
    (h1 : k < QBitArray.count b) :
    QBitArray.atIndex (b.set k.toNat true) k = some true := by
  unfold QBitArray.atIndex QBitArray.count at *
  rw [List.length_set, if_pos ⟨h0, h1⟩, List.get?_eq_getElem?,
    List.getElem?_set_self (by omega)]

theorem onlyMarks_refl (d : QIviPagingModelPrivate) : onlyMarks d d :=
  ⟨d.m_moreAvailable, d.m_availableChunks, rfl, rfl, fun _ h => h⟩

theorem onlyMarks_trans (d d1 d2 : QIviPagingModelPrivate) (h1 : onlyMarks d d1)
    (h2 : onlyMarks d1 d2) : onlyMarks d d2 := by
  obtain ⟨m1, b1, rfl, hl1, hb1⟩ := h1
  obtain ⟨m2, b2, rfl, hl2, hb2⟩ := h2
  exact ⟨m2, b2, rfl, hl2.trans hl1, fun k h => hb2 k (hb1 k h)⟩

/-- A call of `fetchData` that runs to its end only marks. -/
theorem fetchData_onlyMarks (d d1 : QIviPagingModelPrivate) (startIndex : Int)
    (out : List Signal) (h : fetchData d startIndex = .done d1 out) : onlyMarks d d1 := by
  rcases fetchData_done d d1 startIndex out h with ⟨_, rfl, _⟩ | ⟨_, _, _, bits, rfl, hbits⟩
  · exact onlyMarks_refl d1
  · rcases hbits with ⟨rfl, _⟩ | ⟨_, _, rfl⟩
    · exact ⟨false, _, rfl, rfl, fun _ h => h⟩
    · exact ⟨false, _, rfl, List.length_set _ _ _,
        fun k h => QBitArray.atIndex_set_of_true _ _ k h⟩

/-- A call of `fetchMore` that runs to its end only marks. -/
theorem fetchMore_onlyMarks (d d1 : QIviPagingModelPrivate) (parent : QModelIndex)
    (out : List Signal) (h : fetchMore d parent = .done d1 out) : onlyMarks d d1 := by
  unfold fetchMore at h
  split at h
  · cases h
    exact onlyMarks_refl _
  · split at h
    · cases h
      exact onlyMarks_refl _
    · exact onlyMarks_trans d _ d1 ⟨false, d.m_availableChunks, rfl, rfl, fun _ h => h⟩
        (fetchData_onlyMarks _ d1 _ out h)

/-- A request sent by `fetchData` leaves `m_moreAvailable` cleared. -/
theorem fetchData_sent_clears (d d1 : QIviPagingModelPrivate) (startIndex : Int)
    (out : List Signal) (h : fetchData d startIndex = .done d1 out) (hout : out ≠ []) :
    d1.m_moreAvailable = false := by
  rcases fetchData_done d d1 startIndex out h with ⟨_, _, rfl⟩ | ⟨_, _, _, bits, rfl, _⟩
  · exact absurd rfl hout
  · rfl

/-- The three ways a read returns: without touching anything, after the cache-miss request
of the `DataChanged` loading type, or after the signal `fetchMoreThresholdReached` and
the call of `fetchMore` it triggers. -/
theorem get_returned (d d1 : QIviPagingModelPrivate) (i : Int) (v : QVariant)
    (out : List Signal) (h : d.get i = .returned v d1 out) :
    (d1 = d ∧ out = [])
    ∨ (0 ≤ i ∧ i < QList.count d.m_itemList ∧ d.m_chunkSize ≠ 0
      ∧ d.m_loadingType = .DataChanged
      ∧ QBitArray.atIndex d.m_availableChunks (i.tdiv d.m_chunkSize) = some false
      ∧ fetchData d (i.tdiv d.m_chunkSize * d.m_chunkSize) = .done d1 out)
    ∨ (0 ≤ i ∧ i < QList.count d.m_itemList ∧ d.m_chunkSize ≠ 0
      ∧ (d.m_loadingType = .DataChanged →
          QBitArray.atIndex d.m_availableChunks (i.tdiv d.m_chunkSize) = some true)
      ∧ ∃ out2, fetchMore d none = .done d1 out2
          ∧ out = .fetchMoreThresholdReached :: out2) := by
  unfold QIviPagingModelPrivate.get index at h
  by_cases hv : 0 ≤ i ∧ i < QList.count d.m_itemList
  case neg =>
    rw [if_neg hv] at h
    unfold data at h
    cases h
    exact Or.inl ⟨rfl, rfl⟩
  rw [if_pos hv] at h
  unfold data at h
  dsimp only at h
  rw [if_neg (by omega)] at h
  by_cases hc : d.m_chunkSize = 0
  · rw [if_pos hc] at h
    cases h
  rw [if_neg hc] at h
  have hrest : ∀ reached : Outcome,
      (match reached with
        | .aborted why d1 out => ReadOutcome.aborted why d1 out
        | .done d1 out =>
          match QList.atIndex d1.m_itemList i with
          | none => ReadOutcome.aborted .indexOutOfRange d1 out
          | some value => ReadOutcome.returned value d1 out) = .returned v d1 out →
      reached = .done d1 out := by
    intro reached hr
    cases reached with
    | aborted why d2 out2 => cases hr
    | done d2 out2 =>
      dsimp only at hr
      cases hat : QList.atIndex d2.m_itemList i with
      | none => rw [hat] at hr; cases hr
      | some value => rw [hat] at hr; cases hr; rfl
  have hthreshold : ∀ reached : Outcome,
      reached = (if i ≥ wrapInt (d.m_fetchedDataCount - d.m_fetchMoreThreshold)
          ∧ d.canFetchMore none = true then
        (onFetchMoreThresholdReached d).withEarlier [.fetchMoreThresholdReached]
        else .done d []) →
      reached = .done d1 out →
      (d1 = d ∧ out = [])
      ∨ ∃ out2, fetchMore d none = .done d1 out2
          ∧ out = .fetchMoreThresholdReached :: out2 := by
    intro reached hdef hr
    rw [hdef] at hr
    split at hr
    · right
      unfold onFetchMoreThresholdReached at hr
      cases hfm : fetchMore d none with
      | aborted why d2 out2 => rw [hfm] at hr; cases hr
      | done d2 out2 =>
        rw [hfm] at hr
        simp only [Outcome.withEarlier, List.singleton_append] at hr
        cases hr
        exact ⟨out2, rfl, rfl⟩
    · cases hr
      exact Or.inl ⟨rfl, rfl⟩
  cases hload : d.m_loadingType with
  | FetchMore =>
    simp only [hload] at h
    rcases hthreshold _ rfl (hrest _ h) with h2 | h2
    · exact Or.inl h2
    · exact Or.inr (Or.inr ⟨hv.1, hv.2, hc, (fun hx => by cases hx), h2⟩)
  | DataChanged =>
    simp only [hload] at h
    cases hbit : QBitArray.atIndex d.m_availableChunks (i.tdiv d.m_chunkSize) with
    | none =>
      rw [hbit] at h
      cases h
    | some b =>
      rw [hbit] at h
      cases b with
      | false =>
        simp only [Option.map, Bool.not_false] at h
        cases hfd : fetchData d (i.tdiv d.m_chunkSize * d.m_chunkSize) with
        | aborted why d2 out2 => rw [hfd] at h; cases h
        | done d2 out2 =>
          rw [hfd] at h
          cases h
          exact Or.inr (Or.inl ⟨hv.1, hv.2, hc, rfl, rfl, rfl⟩)
      | true =>
        simp only [Option.map, Bool.not_true] at h
        rcases hthreshold _ rfl (hrest _ h) with h2 | h2
        · exact Or.inl h2
        · exact Or.inr (Or.inr ⟨hv.1, hv.2, hc, fun _ => rfl, h2⟩)

/-- A read that returns only marks. -/
theorem get_onlyMarks (d d1 : QIviPagingModelPrivate) (i : Int) (v : QVariant)
    (out : List Signal) (h : d.get i = .returned v d1 out) : onlyMarks d d1 := by
  rcases get_returned d d1 i v out h with ⟨rfl, _⟩ | ⟨_, _, _, _, _, hfd⟩
    | ⟨_, _, _, _, out2, hfm, _⟩
  · exact onlyMarks_refl _
  · exact fetchData_onlyMarks d d1 _ out hfd
  · exact fetchMore_onlyMarks d d1 none out2 hfm

/-- With `m_moreAvailable` cleared and, under `DataChanged`, the bit of the chunk of the
row set, a read of a valid row returns the item of the row, raises nothing and leaves the
object as it was. -/
theorem get_quiet (d : QIviPagingModelPrivate) (j : Int) (hc : d.m_chunkSize ≠ 0)
    (hj0 : 0 ≤ j) (hj1 : j < QList.count d.m_itemList) (hmore : d.m_moreAvailable = false)
    (hbit : d.m_loadingType = .DataChanged →
      QBitArray.atIndex d.m_availableChunks (j.tdiv d.m_chunkSize) = some true) :
    ∃ v, d.m_itemList.get? j.toNat = some v ∧ d.get j = .returned v d [] := by
  obtain ⟨v, hv, hget⟩ := QList.atIndex_of_valid d.m_itemList j hj0 hj1
  refine ⟨v, hget, ?_⟩
  unfold QIviPagingModelPrivate.get index
  rw [if_pos ⟨hj0, hj1⟩]
  unfold data
  dsimp only
  rw [if_neg (by omega), if_neg hc]
  have hno : ¬ (j ≥ wrapInt (d.m_fetchedDataCount - d.m_fetchMoreThreshold)
      ∧ d.canFetchMore none = true) := by
    rintro ⟨_, h2⟩
    unfold canFetchMore at h2
    simp [hmore] at h2
  cases hload : d.m_loadingType with
  | FetchMore =>
    simp only [hload]
    rw [if_neg hno]
    simp only [hv]
  | DataChanged =>
    simp only [hload, hbit hload, Option.map, Bool.not_true]
    rw [if_neg hno]
    simp only [hv]

/-- C14: for a positive chunk size, when a read of row `i` has returned after sending a
request to the backend, a further read of a valid row `j` (any valid row under
`FetchMore`, a row of the same chunk `i / m_chunkSize` under `DataChanged`) made on the
resulting object returns the item of the row, sends no request, raises no signal and
leaves the object as it was. -/
theorem second_read_sends_no_request (d d1 : QIviPagingModelPrivate) (i j : Int)
    (v : QVariant) (out : List Signal) (hc : 0 < d.m_chunkSize)
    (hfirst : d.get i = .returned v d1 out)
    (hsent : ∃ identifier start count, Signal.backendFetchData identifier start count ∈ out)
    (hj0 : 0 ≤ j) (hj1 : j < QList.count d1.m_itemList)
    (hsame : d.m_loadingType = .DataChanged → j / d.m_chunkSize = i / d.m_chunkSize) :
    ∃ v2, d1.m_itemList.get? j.toNat = some v2 ∧ d1.get j = .returned v2 d1 [] := by
  obtain ⟨identifier, start, count, hmem⟩ := hsent
  have hmarks := get_onlyMarks d d1 i v out hfirst
  obtain ⟨more, bits, hd1, _, hkeep⟩ := hmarks
  have hfacts : d1.m_moreAvailable = false ∧ 0 ≤ i
      ∧ (d.m_loadingType = .DataChanged →
        QBitArray.atIndex d1.m_availableChunks (i.tdiv d.m_chunkSize) = some true) := by
    rcases get_returned d d1 i v out hfirst with ⟨_, rfl⟩ | ⟨hi0, _, _, _, hbit, hfd⟩
      | ⟨hi0, _, _, hbit, out2, hfm, rfl⟩
    · cases hmem
    · refine ⟨fetchData_sent_clears d d1 _ out hfd (List.ne_nil_of_mem hmem), hi0, fun _ => ?_⟩
      have hk0 : 0 ≤ i.tdiv d.m_chunkSize := Int.tdiv_nonneg hi0 (le_of_lt hc)
      have hk1 : i.tdiv d.m_chunkSize < QBitArray.count d.m_availableChunks := by
        unfold QBitArray.atIndex at hbit
        split at hbit
        · rename_i hr
          exact hr.2
        · cases hbit
      have hpos : i.tdiv d.m_chunkSize * d.m_chunkSize ≥ 0 :=
        Int.mul_nonneg hk0 (le_of_lt hc)
      rcases fetchData_done d d1 _ out hfd with ⟨_, _, rfl⟩ | ⟨_, _, _, bits2, rfl, hb2⟩
      · cases hmem
      · rw [if_pos hpos, Int.mul_tdiv_cancel _ (ne_of_gt hc)] at hb2
        rcases hb2 with ⟨_, hle⟩ | ⟨_, _, rfl⟩
        · omega
        · exact QBitArray.atIndex_set_self _ _ hk0 hk1
    · have hmem2 : Signal.backendFetchData identifier start count ∈ out2 := by
        simpa using hmem
      refine ⟨?_, hi0, fun hl => ?_⟩
      · unfold fetchMore at hfm
        simp only [Option.isSome_none, Bool.false_eq_true, if_false] at hfm
        split at hfm
        · cases hfm
          cases hmem2
        · exact fetchData_sent_clears _ d1 _ out2 hfm (List.ne_nil_of_mem hmem2)
      · rw [hd1]
        exact hkeep _ (hbit hl)
  have hc1 : d1.m_chunkSize = d.m_chunkSize := by rw [hd1]
  have hl1 : d1.m_loadingType = d.m_loadingType := by rw [hd1]
  apply get_quiet d1 j (by rw [hc1]; exact ne_of_gt hc) hj0 hj1 hfacts.1
  intro hl
  rw [hl1] at hl
  rw [hc1, Int.tdiv_eq_ediv hj0 (le_of_lt hc), hsame hl,
    ← Int.tdiv_eq_ediv hfacts.2.1 (le_of_lt hc)]
  exact hfacts.2.2 hl

/-- Witness for C14: chunk size 3, seven slots, three unset bits; the read of row 4 sends
a request, the read of row 5 that follows sends none. -/
theorem second_read_sends_no_request_witness :
    ∃ v2,
      ({ sampleModel .DataChanged (List.replicate 7 .invalid) [false, true, false] with
          m_chunkSize := 3 } : QIviPagingModelPrivate).m_itemList.get? (5 : Int).toNat
        = some v2
      ∧ QIviPagingModelPrivate.get
          { sampleModel .DataChanged (List.replicate 7 .invalid) [false, true, false] with
            m_chunkSize := 3 } 5
        = .returned v2
          { sampleModel .DataChanged (List.replicate 7 .invalid) [false, true, false] with
            m_chunkSize := 3 } [] :=
  second_read_sends_no_request
    { sampleModel .DataChanged (List.replicate 7 .invalid) [false, false, false] with
      m_chunkSize := 3 }
    { sampleModel .DataChanged (List.replicate 7 .invalid) [false, true, false] with
      m_chunkSize := 3 } 4 5 .invalid [.backendFetchData 7 3 3] (by decide) rfl
    ⟨7, 3, 3, by simp⟩ (by decide) (by decide) (fun _ => by decide)

/-! ## Reachable objects -/

/-- The object reached from construction (identifier 7, backend set) by the capability
report `SupportsGetSize` and `setLoadingType(DataChanged)`: an empty `DataChanged` object
whose first request has been sent. -/
theorem reachable_fresh_dataChanged :
    Reachable anyOp
      { sampleModel .DataChanged [] [] with m_capabilities := SupportsGetSize } :=
  Reachable.step _ _ (.setLoadingType .DataChanged)
    [.loadingTypeChanged .DataChanged, .modelAboutToBeReset, .modelReset, .countChanged,
      .backendFetchData 7 0 30]
    (Reachable.step _ _ (.onCapabilitiesChanged 7 SupportsGetSize)
      [.capabilitiesChanged SupportsGetSize] (Reachable.start 7 true) trivial rfl)
    trivial rfl

/-- The object reached from the fresh `DataChanged` object by the count report 40: forty
empty slots and two unset bits. -/
theorem reachable_forty_slots :
    Reachable anyOp
      { sampleModel .DataChanged (List.replicate 40 .invalid) [false, false] with
        m_capabilities := SupportsGetSize } :=
  Reachable.step _ _ (.onCountChanged 7 40)
    [.rowsAboutToBeInserted 0 39, .rowsInserted 0 39, .countChanged]
    reachable_fresh_dataChanged trivial rfl

/-- C17: evaluation of a run that stays under `DataChanged`: capability report, switch to
`DataChanged`, count report 40, count report 41. The second report appends 41 slots to
the 40 there are and sizes the tracker for 41 rows: the list has 81 slots, the tracker 2
bits, and row 80 belongs to chunk 2, which the tracker does not have; a read of row 80
stops at the tracker access. -/
theorem tracker_coverage_lost_by_second_report :
    ∃ d, Reachable anyOp d ∧ d.m_loadingType = .DataChanged
      ∧ QList.count d.m_itemList = 81 ∧ QBitArray.count d.m_availableChunks = 2
      ∧ (0 : Int) ≤ 80 ∧ (80 : Int) < QList.count d.m_itemList
      ∧ ¬ ((80 : Int) / d.m_chunkSize < QBitArray.count d.m_availableChunks)
      ∧ d.get 80 = .aborted .indexOutOfRange d [] := by
  refine ⟨{ sampleModel .DataChanged (List.replicate 81 .invalid) [false, false] with
      m_capabilities := SupportsGetSize }, ?_, rfl, by decide, by decide, by decide,
    by decide, by decide, by rfl⟩
  exact Reachable.step _ _ (.onCountChanged 7 41)
    [.rowsAboutToBeInserted 40 80, .rowsInserted 40 80, .countChanged]
    reachable_forty_slots
    trivial rfl

/-- C18: evaluation of a run that stays under `FetchMore`: on the constructed object the
notification `dataChanged(identifier, [x], 0, 0)`, the report of one inserted row, puts
the item in the list and leaves `m_fetchedDataCount` at 0: the list has one item, the
fetched count is 0. -/
theorem fetchedCount_not_kept_by_insert :
    ∃ d, Reachable anyOp d ∧ d.m_loadingType = .FetchMore
      ∧ d.m_itemList = [.item 1] ∧ d.m_fetchedDataCount = 0
      ∧ QList.count d.m_itemList ≠ d.m_fetchedDataCount := by
  refine ⟨{ constructed 7 true with m_itemList := [.item 1] }, ?_, rfl, rfl, rfl, by decide⟩
  exact Reachable.step _ _ (.onDataChanged 7 [.item 1] 0 0)
    [.rowsAboutToBeInserted 0 0, .rowsInserted 0 0, .countChanged]
    (Reachable.start 7 true) trivial rfl

/-! ## Populated slots and availability bits -/

/-- The replace loop entered at `i` with `n` iterations left leaves every slot from
`start + i + n` on as it was. -/
theorem fetchedReplaceLoop_above (items : List QVariant) (start : Int) :
    ∀ (n : Nat) (i : Int) (l l2 : List QVariant),
      fetchedReplaceLoop items start n i l = .ok l2 →
      ∀ j : Nat, start + i + (n : Int) ≤ (j : Int) → l2[j]? = l[j]?
  | 0, i, l, l2, h, j, _ => by
    unfold fetchedReplaceLoop at h
    cases h
    rfl
  | n + 1, i, l, l2, h, j, hj => by
    unfold fetchedReplaceLoop at h
    cases hat : QList.atIndex items i with
    | none => rw [hat] at h; cases h
    | some v =>
      rw [hat] at h
      simp only at h
      cases hrep : QList.replace l (start + i) v with
      | none => rw [hrep] at h; cases h
      | some l1 =>
        rw [hrep] at h
        simp only at h
        rw [fetchedReplaceLoop_above items start n (i + 1) l1 l2 h j (by push_cast at hj; omega)]
        unfold QList.replace at hrep
        split at hrep
        · cases hrep
          rw [List.getElem?_set_ne (by push_cast at hj; omega)]
        · cases hrep

/-- A replace loop that runs at least once to its end starts at a row that is not
negative. -/
theorem fetchedReplaceLoop_nonneg (items : List QVariant) (start : Int) (n : Nat) (i : Int)
    (l l2 : List QVariant) (h : fetchedReplaceLoop items start (n + 1) i l = .ok l2) :
    0 ≤ start + i := by
  unfold fetchedReplaceLoop at h
  cases hat : QList.atIndex items i with
  | none => rw [hat] at h; cases h
  | some v =>
    rw [hat] at h
    simp only at h
    cases hrep : QList.replace l (start + i) v with
    | none => rw [hrep] at h; cases h
    | some l1 =>
      unfold QList.replace at hrep
      split at hrep
      · rename_i hr
        exact hr.1
      · cases hrep

/-- The ways `onDataFetched` runs to its end: the notification is dropped, the batch is
appended under `FetchMore`, the batch is discarded under `DataChanged`, or the batch is
written in place under `DataChanged`. -/
theorem onDataFetched_done (d d2 : QIviPagingModelPrivate) (identifier : QUuid)
    (items : List QVariant) (start : Int) (moreAvailable : Bool) (out : List Signal)
    (h : onDataFetched d identifier items start moreAvailable = .done d2 out) :
    d2 = d
    ∨ (d.m_loadingType = .FetchMore
      ∧ d2 = { d with
          m_moreAvailable := moreAvailable
          m_itemList := d.m_itemList ++ items
          m_fetchedDataCount := QList.count (d.m_itemList ++ items) })
    ∨ (d.m_loadingType = .DataChanged ∧ d2 = { d with m_moreAvailable := moreAvailable })
    ∨ (d.m_loadingType = .DataChanged ∧ QList.count items ≤ d.m_chunkSize
      ∧ d.m_chunkSize ≠ 0
      ∧ (start + QList.count items - 1).tdiv d.m_chunkSize = start.tdiv d.m_chunkSize
      ∧ 0 ≤ start.tdiv d.m_chunkSize
      ∧ start.tdiv d.m_chunkSize < QBitArray.count d.m_availableChunks
      ∧ ∃ l, fetchedReplaceLoop items start items.length 0 d.m_itemList = .ok l
        ∧ d2 = { d with
            m_moreAvailable := moreAvailable
            m_fetchedDataCount := start + QList.count items
            m_itemList := l
            m_availableChunks :=
              d.m_availableChunks.set (start.tdiv d.m_chunkSize).toNat true }) := by
  unfold onDataFetched at h
  by_cases hf : ¬ identifier.isNull
      ∧ (QList.count items = 0 ∨ identifier ≠ d.m_identifier)
  · rw [if_pos hf] at h
    cases h
    exact Or.inl rfl
  rw [if_neg hf] at h
  by_cases hsize : ¬ QList.count items ≤ d.m_chunkSize
  · rw [if_pos hsize] at h
    cases h
  rw [if_neg hsize] at h
  by_cases hc : d.m_chunkSize = 0
  · rw [if_pos hc] at h
    cases h
  rw [if_neg hc] at h
  by_cases halign : (start + QList.count items - 1).tdiv d.m_chunkSize
      ≠ start.tdiv d.m_chunkSize
  · rw [if_pos halign] at h
    cases h
  rw [if_neg halign] at h
  dsimp only at h
  cases hload : d.m_loadingType with
  | FetchMore =>
    rw [hload] at h
    dsimp only at h
    cases h
    exact Or.inr (Or.inl ⟨rfl, rfl⟩)
  | DataChanged =>
    rw [hload] at h
    dsimp only at h
    by_cases hguard : QList.count d.m_itemList < start + QList.count items
        ∨ QBitArray.count d.m_availableChunks < (start + QList.count items).tdiv d.m_chunkSize
    · rw [if_pos hguard] at h
      cases h
      exact Or.inr (Or.inr (Or.inl ⟨rfl, rfl⟩))
    rw [if_neg hguard] at h
    cases hloop : fetchedReplaceLoop items start items.length 0 d.m_itemList with
    | fault why l => rw [hloop] at h; cases h
    | ok l =>
      rw [hloop] at h
      dsimp only at h
      unfold QBitArray.setBit at h
      by_cases hr : 0 ≤ start.tdiv d.m_chunkSize
          ∧ start.tdiv d.m_chunkSize < QBitArray.count d.m_availableChunks
      · rw [if_pos hr] at h
        cases h
        exact Or.inr (Or.inr (Or.inr ⟨rfl, not_not.mp hsize, hc, not_not.mp halign, hr.1,
          hr.2, l, rfl, rfl⟩))
      · rw [if_neg hr] at h
        cases h

theorem Outcome.withEarlier_done (earlier : List Signal) (o : Outcome)
    (d2 : QIviPagingModelPrivate) (out : List Signal)
    (h : o.withEarlier earlier = .done d2 out) : ∃ out2, o = .done d2 out2 := by
  cases o with
  | done d3 out3 =>
    simp only [Outcome.withEarlier] at h
    cases h
    exact ⟨out3, rfl⟩
  | aborted why d3 out3 =>
    simp only [Outcome.withEarlier] at h
    cases h

/-- After `resetModel` the item list is empty; chunk size and loading type are kept. -/
theorem resetModel_done (d d2 : QIviPagingModelPrivate) (out : List Signal)
    (h : resetModel d = .done d2 out) :
    d2.m_itemList = [] ∧ d2.m_chunkSize = d.m_chunkSize
    ∧ d2.m_loadingType = d.m_loadingType := by
  unfold resetModel at h
  obtain ⟨out2, h2⟩ := Outcome.withEarlier_done _ _ d2 out h
  obtain ⟨more, bits, rfl, _, _⟩ := fetchMore_onlyMarks _ d2 none out2 h2
  exact ⟨rfl, rfl, rfl⟩

theorem populatedAreMarked_of_empty (d : QIviPagingModelPrivate) (h : d.m_itemList = []) :
    populatedAreMarked d := by
  intro j v hj
  rw [h] at hj
  cases hj

/-- Marking keeps the chunk size, the loading type and the bits of populated slots. -/
theorem onlyMarks_keeps (d d2 : QIviPagingModelPrivate) (h : onlyMarks d d2) :
    d2.m_chunkSize = d.m_chunkSize ∧ d2.m_loadingType = d.m_loadingType
    ∧ (populatedAreMarked d → populatedAreMarked d2) := by
  obtain ⟨more, bits, rfl, _, hkeep⟩ := h
  exact ⟨rfl, rfl, fun hp j v hj => hkeep _ (hp j v hj)⟩

/-! ## Reset twice, chunk size, loading type -/

/-- For a non-zero chunk size `resetModel` runs to its end: list and tracker are empty, the
fetched count is 0, and with a backend one request for the first chunk has been sent and
`m_moreAvailable` is cleared, without one nothing is sent and `m_moreAvailable` is
set. -/
theorem resetModel_eval (d : QIviPagingModelPrivate) (hc : d.m_chunkSize ≠ 0) :
    resetModel d
      = .done { d with
          m_itemList := []
          m_availableChunks := []
          m_fetchedDataCount := 0
          m_moreAvailable := !d.hasBackend }
        ([.modelAboutToBeReset, .modelReset, .countChanged]
          ++ if d.hasBackend then [.backendFetchData d.m_identifier 0 d.m_chunkSize]
            else []) := by
  by_cases hb : d.hasBackend = true
  · have hsend := fetchData_sends
      { d with m_itemList := [], m_availableChunks := [], m_fetchedDataCount := 0,
               m_moreAvailable := false } (-1) 0 (by simp) hb hc (by simp)
    dsimp only at hsend
    rw [if_neg (by simp [QBitArray.count])] at hsend
    unfold resetModel fetchMore
    simp only [Option.isSome_none, Bool.false_eq_true, if_false]
    rw [if_neg (by simp [hb]), hsend]
    simp [Outcome.withEarlier, hb]
  · have hb2 : d.hasBackend = false := by simpa using hb
    unfold resetModel fetchMore
    simp only [Option.isSome_none, Bool.false_eq_true, if_false]
    rw [if_pos (by simp [hb2])]
    simp [Outcome.withEarlier, hb2]

/-- C21: for a positive chunk size, `reload()` called again on the object the first
`reload()` left, nothing having arrived in between, ends in that same object and raises
the same signals: the item list and the tracker are empty, the fetched count is 0 and
`m_moreAvailable` is cleared with a backend and set without one. -/
theorem reload_twice_same (d : QIviPagingModelPrivate) (hc : 0 < d.m_chunkSize) :
    ∃ d1 out, d.reload = .done d1 out ∧ d1.reload = .done d1 out
      ∧ d1.m_itemList = [] ∧ d1.m_availableChunks = [] ∧ d1.m_fetchedDataCount = 0
      ∧ d1.m_moreAvailable = !d.hasBackend := by
  refine ⟨_, _, resetModel_eval d (ne_of_gt hc), ?_, rfl, rfl, rfl, rfl⟩
  unfold reload
  exact resetModel_eval
    { d with m_itemList := [], m_availableChunks := [], m_fetchedDataCount := 0,
             m_moreAvailable := !d.hasBackend } (ne_of_gt hc)

/-- Witness for C21: a `DataChanged` object with seven slots and a backend. -/
theorem reload_twice_same_witness :
    ∃ d1 out, reload (sampleModel .DataChanged (List.replicate 7 .invalid) [false])
        = .done d1 out ∧ d1.reload = .done d1 out
      ∧ d1.m_itemList = [] ∧ d1.m_availableChunks = [] ∧ d1.m_fetchedDataCount = 0
      ∧ d1.m_moreAvailable
        = !(sampleModel .DataChanged (List.replicate 7 .invalid) [false]).hasBackend :=
  reload_twice_same (sampleModel .DataChanged (List.replicate 7 .invalid) [false])
    (by decide)

/-- C22, as stated, fails: `setChunkSize(3)` on a `DataChanged` object with chunk size 30,
seven slots and one bit stores the value and raises `chunkSizeChanged(3)` only; the
seven slots and the bit stay and no model reset is raised. -/
theorem setChunkSize_keeps_cached_rows :
    setChunkSize (sampleModel .DataChanged (List.replicate 7 .invalid) [true]) 3
      = .done { sampleModel .DataChanged (List.replicate 7 .invalid) [true] with
          m_chunkSize := 3 } [.chunkSizeChanged 3]
    ∧ (sampleModel .DataChanged (List.replicate 7 .invalid) [true]).m_chunkSize ≠ 3
    ∧ List.replicate 7 QVariant.invalid ≠ []
    ∧ Signal.modelReset ∉ [Signal.chunkSizeChanged 3] := by
  refine ⟨rfl, by decide, by decide, by decide⟩

/-- C22, amended: for every `n` different from the current chunk size, `setChunkSize(n)`
stores `n` and raises `chunkSizeChanged(n)`; the item list, the tracker, the fetched
count and `m_moreAvailable` are unchanged, no reset is raised and no request is sent. -/
theorem setChunkSize_only_stores (d : QIviPagingModelPrivate) (n : Int)
    (hn : n ≠ d.m_chunkSize) :
    d.setChunkSize n = .done { d with m_chunkSize := n } [.chunkSizeChanged n] := by
  unfold setChunkSize
  rw [if_neg (fun h => hn h.symm)]

/-- Witness for C22 amended: chunk size 30 changed to 3. -/
theorem setChunkSize_only_stores_witness :
    setChunkSize (sampleModel .DataChanged (List.replicate 7 .invalid) [true]) 3
      = .done { sampleModel .DataChanged (List.replicate 7 .invalid) [true] with
          m_chunkSize := 3 } [.chunkSizeChanged 3] :=
  setChunkSize_only_stores (sampleModel .DataChanged (List.replicate 7 .invalid) [true]) 3
    (by decide)

/-- C23: under `FetchMore`, `setLoadingType(DataChanged)` on capabilities without
`SupportsGetSize` returns with the object unchanged and nothing raised or sent; on
capabilities with `SupportsGetSize`, whatever the other flags, it stores the loading
type, raises `loadingTypeChanged` and resets the model. -/
theorem setLoadingType_gated_by_getSize (d : QIviPagingModelPrivate)
    (hload : d.m_loadingType = .FetchMore) :
    (testFlag d.m_capabilities SupportsGetSize = false →
      d.setLoadingType .DataChanged = .done d [])
    ∧ (testFlag d.m_capabilities SupportsGetSize = true →
      d.setLoadingType .DataChanged
        = (resetModel { d with m_loadingType := .DataChanged }).withEarlier
            [.loadingTypeChanged .DataChanged]) := by
  constructor
  · intro hcap
    unfold setLoadingType
    rw [if_neg (by rw [hload]; decide), if_pos ⟨rfl, by simp [hcap]⟩]
  · intro hcap
    unfold setLoadingType
    rw [if_neg (by rw [hload]; decide), if_neg (by simp [hcap])]

/-- Witness for C23: capabilities `2 + 4` (flags other than `SupportsGetSize`) refuse the
switch. -/
theorem setLoadingType_gated_by_getSize_witness :
    setLoadingType { sampleModel .FetchMore (itemRange 3) [] with m_capabilities := 6 }
        .DataChanged
      = .done { sampleModel .FetchMore (itemRange 3) [] with m_capabilities := 6 } [] :=
  (setLoadingType_gated_by_getSize
    { sampleModel .FetchMore (itemRange 3) [] with m_capabilities := 6 } rfl).1 (by decide)

/-! ## Threshold and chunk size -/

/-- C24: evaluation of two reads of row 30 under `DataChanged` on objects that differ only
in `m_fetchMoreThreshold` (chunk size 30, forty slots, row 30 populated, bit 1 set,
fetched count 31, `m_moreAvailable` set): with threshold 10 the read raises
`fetchMoreThresholdReached`, sends the request `fetchData(7, 31, 30)` and clears
`m_moreAvailable`; with threshold 0 it sends nothing and changes nothing. -/
theorem threshold_changes_dataChanged_read :
    QIviPagingModelPrivate.get
        { sampleModel .DataChanged
            (List.replicate 30 .invalid ++ .item 1 :: List.replicate 9 .invalid)
            [false, true] with
          m_fetchedDataCount := 31, m_moreAvailable := true, m_fetchMoreThreshold := 10 } 30
      = .returned (.item 1)
          { sampleModel .DataChanged
              (List.replicate 30 .invalid ++ .item 1 :: List.replicate 9 .invalid)
              [false, true] with
            m_fetchedDataCount := 31, m_moreAvailable := false, m_fetchMoreThreshold := 10 }
          [.fetchMoreThresholdReached, .backendFetchData 7 31 30]
    ∧ QIviPagingModelPrivate.get
        { sampleModel .DataChanged
            (List.replicate 30 .invalid ++ .item 1 :: List.replicate 9 .invalid)
            [false, true] with
          m_fetchedDataCount := 31, m_moreAvailable := true, m_fetchMoreThreshold := 0 } 30
      = .returned (.item 1)
          { sampleModel .DataChanged
              (List.replicate 30 .invalid ++ .item 1 :: List.replicate 9 .invalid)
              [false, true] with
            m_fetchedDataCount := 31, m_moreAvailable := true, m_fetchMoreThreshold := 0 }
          [] := by
  refine ⟨by rfl, by rfl⟩

/-- The part of `onDataChanged` after the update block changes the item list only. -/
theorem onDataChangedInsertRemove_done (d d2 : QIviPagingModelPrivate)
    (data : List QVariant) (delta updateCountEnd insertRemoveStart insertRemoveCount : Int)
    (out out2 : List Signal)
    (h : onDataChangedInsertRemove d data delta updateCountEnd insertRemoveStart
      insertRemoveCount out = .done d2 out2) :
    ∃ l, d2 = { d with m_itemList := l } := by
  unfold onDataChangedInsertRemove at h
  dsimp only at h
  split at h
  · split at h
    · cases h
    · cases h
      exact ⟨_, rfl⟩
  · split at h
    · split at h
      · cases h
      · cases h
        exact ⟨_, rfl⟩
    · cases h
      exact ⟨d.m_itemList, rfl⟩

/-- A `dataChanged` notification changes the item list only. -/
theorem onDataChanged_done (d d2 : QIviPagingModelPrivate) (identifier : QUuid)
    (data : List QVariant) (start count : Int) (out : List Signal)
    (h : onDataChanged d identifier data start count = .done d2 out) :
    ∃ l, d2 = { d with m_itemList := l } := by
  unfold onDataChanged at h
  split at h
  · cases h
    exact ⟨d.m_itemList, rfl⟩
  · split at h
    · cases h
      exact ⟨d.m_itemList, rfl⟩
    · split at h
      · cases h
        exact ⟨d.m_itemList, rfl⟩
      · dsimp only at h
        split at h
        · split at h
          · cases h
          · obtain ⟨l, hl⟩ := onDataChangedInsertRemove_done _ d2 _ _ _ _ _ _ _ h
            exact ⟨l, hl⟩
        · exact onDataChangedInsertRemove_done d d2 _ _ _ _ _ _ _ h

/-- A count report changes the item list and the tracker only. -/
theorem onCountChanged_done (d d2 : QIviPagingModelPrivate) (identifier : QUuid)
    (new_length : Int) (out : List Signal)
    (h : onCountChanged d identifier new_length = .done d2 out) :
    ∃ l bits, d2 = { d with m_itemList := l, m_availableChunks := bits } := by
  unfold onCountChanged at h
  split at h
  · cases h
    exact ⟨d.m_itemList, d.m_availableChunks, rfl⟩
  · dsimp only at h
    split at h
    · cases h
    · split at h
      · cases h
      · cases h
        exact ⟨_, _, rfl⟩

/-- After an operation or a notification that runs to its end the chunk size is the one
before, except that `setChunkSize` stores its argument and `clearServiceObject` stores
30. -/
theorem run_chunkSize (d d2 : QIviPagingModelPrivate) (op : Op) (out : List Signal)
    (hrun : op.run d = .done d2 out) :
    d2.m_chunkSize = d.m_chunkSize ∨ d2.m_chunkSize = 30
    ∨ ∃ n, op = .setChunkSize n ∧ d2.m_chunkSize = n := by
  cases op with
  | setChunkSize chunkSize =>
    simp only [Op.run, setChunkSize] at hrun
    split at hrun
    · cases hrun
      exact Or.inl rfl
    · cases hrun
      exact Or.inr (Or.inr ⟨chunkSize, rfl, rfl⟩)
  | setFetchMoreThreshold fetchMoreThreshold =>
    simp only [Op.run, setFetchMoreThreshold] at hrun
    split at hrun
    · cases hrun
      exact Or.inl rfl
    · cases hrun
      exact Or.inl rfl
  | setLoadingType loadingType =>
    simp only [Op.run, setLoadingType] at hrun
    split at hrun
    · cases hrun
      exact Or.inl rfl
    · split at hrun
      · cases hrun
        exact Or.inl rfl
      · obtain ⟨out2, h2⟩ := Outcome.withEarlier_done _ _ d2 out hrun
        exact Or.inl (resetModel_done _ d2 out2 h2).2.1
  | reload =>
    simp only [Op.run, reload] at hrun
    exact Or.inl (resetModel_done _ d2 out hrun).2.1
  | clearServiceObject fresh =>
    simp only [Op.run, clearServiceObject, clearToDefaults] at hrun
    obtain ⟨out2, h2⟩ := Outcome.withEarlier_done _ _ d2 out hrun
    exact Or.inr (Or.inl (resetModel_done _ d2 out2 h2).2.1)
  | get i =>
    simp only [Op.run] at hrun
    cases hget : d.get i with
    | aborted why d3 out3 =>
      rw [hget] at hrun
      simp only [ReadOutcome.toOutcome] at hrun
      cases hrun
    | returned v d3 out3 =>
      rw [hget] at hrun
      simp only [ReadOutcome.toOutcome] at hrun
      cases hrun
      exact Or.inl (onlyMarks_keeps d d2 (get_onlyMarks d d2 i v out hget)).1
  | fetchMore =>
    simp only [Op.run] at hrun
    exact Or.inl (onlyMarks_keeps d d2 (fetchMore_onlyMarks d d2 none out hrun)).1
  | onCapabilitiesChanged identifier capabilities =>
    simp only [Op.run, onCapabilitiesChanged] at hrun
    split at hrun
    · cases hrun
      exact Or.inl rfl
    · split at hrun
      · cases hrun
        exact Or.inl rfl
      · cases hrun
        exact Or.inl rfl
  | onCountChanged identifier new_length =>
    simp only [Op.run] at hrun
    obtain ⟨l, bits, rfl⟩ := onCountChanged_done d d2 identifier new_length out hrun
    exact Or.inl rfl
  | onDataChanged identifier data start count =>
    simp only [Op.run] at hrun
    obtain ⟨l, rfl⟩ := onDataChanged_done d d2 identifier data start count out hrun
    exact Or.inl rfl
  | onDataFetched identifier items start moreAvailable =>
    simp only [Op.run] at hrun
    rcases onDataFetched_done d d2 identifier items start moreAvailable out hrun with
      rfl | ⟨_, rfl⟩ | ⟨_, rfl⟩ | ⟨_, _, _, _, _, _, l, _, rfl⟩
    · exact Or.inl rfl
    · exact Or.inl rfl
    · exact Or.inl rfl
    · exact Or.inl rfl

/-- C25, as stated, fails: `setChunkSize(0)` on the constructed object is accepted and
leaves the chunk size at 0; the `reload()` that follows stops at the division by the
chunk size in `fetchData`. -/
theorem chunkSize_zero_is_reachable :
    ∃ d, Reachable anyOp d ∧ d.m_chunkSize = 0 ∧ ¬ 0 < d.m_chunkSize
      ∧ ∃ d2 out, d.reload = .aborted .divideByZero d2 out := by
  refine ⟨{ constructed 7 true with m_chunkSize := 0 }, ?_, rfl, by decide, _, _, rfl⟩
  exact Reachable.step _ _ (.setChunkSize 0) [.chunkSizeChanged 0]
    (Reachable.start 7 true) trivial rfl

/-- C25, amended: the chunk size is positive after construction (30) and stays positive
through every public operation and every notification, as long as `setChunkSize` is
called with positive values only. -/
theorem chunkSize_positive (d : QIviPagingModelPrivate)
    (hreach : Reachable positiveChunkSizes d) : 0 < d.m_chunkSize := by
  induction hreach with
  | start identifier hasBackend =>
    show (0 : Int) < 30
    decide
  | step d3 d4 op out _ hall hrun ih =>
    rcases run_chunkSize d3 d4 op out hrun with h | h | ⟨n, rfl, h⟩
    · rw [h]
      exact ih
    · rw [h]
      decide
    · rw [h]
      exact hall

/-- Witness for C25 amended: the constructed object after `setChunkSize(3)`. -/
theorem chunkSize_positive_witness :
    0 < ({ constructed 7 true with m_chunkSize := 3 } : QIviPagingModelPrivate).m_chunkSize :=
  chunkSize_positive { constructed 7 true with m_chunkSize := 3 }
    (Reachable.step _ _ (.setChunkSize 3) [.chunkSizeChanged 3] (Reachable.start 7 true)
      (show (0 : Int) < 3 by decide) rfl)

/-! ## Length bound, own identifier, bounds of the accesses -/

/-- C26: evaluation of a run under `FetchMore` with chunk size 30: on the constructed
object the notification `dataChanged(identifier, [x], 0, 0)` inserts one row and leaves
the fetched count at 0; the batch of 30 items that `dataFetched` then delivers is
appended and the list has 31 rows, more than `m_fetchedDataCount + m_chunkSize = 30`. -/
theorem append_exceeds_fetchedCount_plus_chunk :
    ∃ d, Reachable anyOp d ∧ d.m_loadingType = .FetchMore ∧ 0 < d.m_chunkSize
      ∧ QList.count (itemRange 30) ≤ d.m_chunkSize
      ∧ ∃ d2 out, onDataFetched d 7 (itemRange 30) 0 true = .done d2 out
        ∧ QList.count d2.m_itemList = 31
        ∧ ¬ QList.count d2.m_itemList ≤ d.m_fetchedDataCount + d.m_chunkSize := by
  refine ⟨{ constructed 7 true with m_itemList := [.item 1] }, ?_, rfl, by decide, by decide,
    _, _, rfl, by decide, by decide⟩
  exact Reachable.step _ _ (.onDataChanged 7 [.item 1] 0 0)
    [.rowsAboutToBeInserted 0 0, .rowsInserted 0 0, .countChanged]
    (Reachable.start 7 true) trivial rfl

/-- C27, as stated, fails: under `FetchMore` a count report with the object's own
identifier is dropped while the same report with the null identifier appends three empty
slots; and a `dataFetched` notification with an empty batch is dropped with the own
identifier while with the null identifier it overwrites `m_moreAvailable` and raises
rows-inserted. -/
theorem own_identifier_differs_from_broadcast :
    onCountChanged (sampleModel .FetchMore [] []) 7 3 = .done (sampleModel .FetchMore [] []) []
    ∧ onCountChanged (sampleModel .FetchMore [] []) 0 3
      = .done (sampleModel .FetchMore (List.replicate 3 .invalid) [false])
          [.rowsAboutToBeInserted 0 2, .rowsInserted 0 2, .countChanged]
    ∧ onDataFetched (sampleModel .FetchMore [] []) 7 [] 0 true
      = .done (sampleModel .FetchMore [] []) []
    ∧ onDataFetched (sampleModel .FetchMore [] []) 0 [] 0 true
      = .done { sampleModel .FetchMore [] [] with m_moreAvailable := true }
          [.rowsAboutToBeInserted 0 (-1), .rowsInserted 0 (-1), .countChanged] := by
  refine ⟨rfl, rfl, rfl, rfl⟩

/-- C27, amended: handling a notification with the object's own identifier gives the same
outcome (object, signals, requests) as handling it with the null identifier for
`onCapabilitiesChanged` and `onDataChanged` with every payload, for `onDataFetched` with
every non-empty batch, and for `onCountChanged` under `DataChanged` with every count
different from the length of the item list. -/
theorem own_identifier_like_broadcast (d : QIviPagingModelPrivate) :
    (∀ capabilities, onCapabilitiesChanged d d.m_identifier capabilities
        = onCapabilitiesChanged d 0 capabilities)
    ∧ (∀ data start count, onDataChanged d d.m_identifier data start count
        = onDataChanged d 0 data start count)
    ∧ (∀ items start moreAvailable, items ≠ [] →
        onDataFetched d d.m_identifier items start moreAvailable
          = onDataFetched d 0 items start moreAvailable)
    ∧ (∀ new_length, d.m_loadingType = .DataChanged →
        QList.count d.m_itemList ≠ new_length →
        onCountChanged d d.m_identifier new_length = onCountChanged d 0 new_length) := by
  have hnull : QUuid.isNull 0 = true := rfl
  have hown : ¬ (¬ QUuid.isNull d.m_identifier = true ∧ d.m_identifier ≠ d.m_identifier) :=
    fun h => h.2 rfl
  have hzero : ¬ (¬ QUuid.isNull 0 = true ∧ (0 : QUuid) ≠ d.m_identifier) :=
    fun h => h.1 hnull
  refine ⟨?_, ?_, ?_, ?_⟩
  · intro capabilities
    unfold onCapabilitiesChanged
    rw [if_neg hown, if_neg hzero]
  · intro data start count
    unfold onDataChanged
    rw [if_neg hown, if_neg hzero]
  · intro items start moreAvailable hne
    have h1 := onDataFetched_filter_passes d d.m_identifier items (Or.inr ⟨hne, rfl⟩)
    have h2 := onDataFetched_filter_passes d 0 items (Or.inl hnull)
    unfold onDataFetched
    rw [if_neg h1, if_neg h2]
  · intro new_length hload hlen
    have h1 : ¬ (¬ QUuid.isNull d.m_identifier = true ∧ (d.m_identifier ≠ d.m_identifier
        ∨ d.m_loadingType ≠ .DataChanged ∨ QList.count d.m_itemList = new_length)) := by
      rintro ⟨_, h3 | h3 | h3⟩
      · exact h3 rfl
      · exact h3 hload
      · exact hlen h3
    have h2 : ¬ (¬ QUuid.isNull 0 = true ∧ ((0 : QUuid) ≠ d.m_identifier
        ∨ d.m_loadingType ≠ .DataChanged ∨ QList.count d.m_itemList = new_length)) :=
      fun h => h.1 hnull
    unfold onCountChanged
    rw [if_neg h1, if_neg h2]

/-- Witness for C27 amended: a `DataChanged` object with three slots, a one-item batch at
row 1 and the count report 7. -/
theorem own_identifier_like_broadcast_witness :
    onDataFetched (sampleModel .DataChanged (List.replicate 3 .invalid) [false]) 7
        [.item 1] 1 true
      = onDataFetched (sampleModel .DataChanged (List.replicate 3 .invalid) [false]) 0
        [.item 1] 1 true
    ∧ onCountChanged (sampleModel .DataChanged (List.replicate 3 .invalid) [false]) 7 7
      = onCountChanged (sampleModel .DataChanged (List.replicate 3 .invalid) [false]) 0 7 :=
  ⟨(own_identifier_like_broadcast
      (sampleModel .DataChanged (List.replicate 3 .invalid) [false])).2.2.1
      [.item 1] 1 true (by decide),
    (own_identifier_like_broadcast
      (sampleModel .DataChanged (List.replicate 3 .invalid) [false])).2.2.2
      7 rfl (by decide)⟩

/-- C28: evaluation of two runs under `DataChanged` with chunk size 30. After the count
reports 40 and 41 the list has 81 rows and the tracker 2 bits: the notification
`dataFetched(identifier, [x], 60, false)` passes every check (`60 >= 0`, alignment,
`61 <= 81`, tracker size `2 >= 61 / 30`) and stops at `setBit(2)` on the tracker of two
bits, and the read of the valid row 60 stops at the tracker access `at(2)`. On the
freshly reset object, the broadcast of an empty batch at row 0 passes the assertions and
the guard and stops at `setBit(0)` on the empty tracker. -/
theorem tracker_access_out_of_bounds :
    (∃ d, Reachable anyOp d ∧ d.m_loadingType = .DataChanged ∧ 0 < d.m_chunkSize
      ∧ (60 + QList.count [QVariant.item 1] - 1) / d.m_chunkSize = 60 / d.m_chunkSize
      ∧ 60 + QList.count [QVariant.item 1] ≤ QList.count d.m_itemList
      ∧ QBitArray.count d.m_availableChunks
          ≥ (60 + QList.count [QVariant.item 1]) / d.m_chunkSize
      ∧ ¬ ((60 : Int) / d.m_chunkSize < QBitArray.count d.m_availableChunks)
      ∧ (∃ d2, onDataFetched d 7 [.item 1] 60 false = .aborted .indexOutOfRange d2 [])
      ∧ d.get 60 = .aborted .indexOutOfRange d [])
    ∧ (∃ d, Reachable anyOp d ∧ d.m_loadingType = .DataChanged ∧ 0 < d.m_chunkSize
      ∧ d.m_availableChunks = []
      ∧ ∃ d2, onDataFetched d 0 [] 0 false = .aborted .indexOutOfRange d2 []) := by
  constructor
  · refine ⟨{ sampleModel .DataChanged (List.replicate 81 QVariant.invalid) [false, false]
        with m_capabilities := SupportsGetSize }, ?_, by rfl, by decide, by decide,
      by decide, by decide, by decide, ⟨_, by rfl⟩, by rfl⟩
    exact Reachable.step _ _ (.onCountChanged 7 41)
      [.rowsAboutToBeInserted 40 80, .rowsInserted 40 80, .countChanged]
      reachable_forty_slots
      trivial rfl
  · exact ⟨_, reachable_fresh_dataChanged, by rfl, by decide, by rfl, _, by rfl⟩

/-- C29: evaluation of `onDataChanged` on the one-item list `0` with `start = 0`,
`count = 1` and the two new items `a, b`: validation passes, `a` is written over row 0,
and the insert loop, entered at row `start + updateCount + 1 = 2` (beyond the length 1)
with `j = updateCount + 1 = 2`, reads `data.at(2)` from a list of two items: the handler
stops there, `b` not inserted. -/
theorem onDataChanged_reads_past_new_data :
    onDataChanged (sampleModel .FetchMore [.item 0] []) 0 [.item 100, .item 101] 0 1
      = .aborted .indexOutOfRange (sampleModel .FetchMore [.item 100] [])
          [.dataChanged (some 0) (some 0), .rowsAboutToBeInserted 2 2]
    ∧ QList.atIndex [QVariant.item 100, .item 101] 2 = none
    ∧ (0 : Int) ≤ 0 ∧ (0 : Int) ≤ QList.count [QVariant.item 0]
    ∧ (0 : Int) ≤ 1 ∧ (1 : Int) ≤ QList.count [QVariant.item 0] - 0 := by
  refine ⟨rfl, rfl, by decide, by decide, by decide, by decide⟩

/-! ## Pure insertion and same-length replacement -/

/-- The update loop of `onDataChanged`, run over the `n` slots `mid` that follow the slots
`pre`, writes the items `its` of the new data over them. -/
theorem updateLoop_writes (data : List QVariant) :
    ∀ (n : Nat) (seen its pre mid post : List QVariant),
      data = seen ++ its → its.length = n → mid.length = n →
      updateLoop data n (pre.length : Int) (seen.length : Int) (pre ++ mid ++ post)
        = .ok (pre ++ its ++ post)
  | 0, seen, its, pre, mid, post, _, hits, hmid => by
    have h1 : its = [] := List.length_eq_zero.mp hits
    have h2 : mid = [] := List.length_eq_zero.mp hmid
    subst h1 h2
    rfl
  | n + 1, seen, its, pre, mid, post, hdata, hits, hmid => by
    obtain ⟨v, its2, rfl⟩ := List.exists_cons_of_length_eq_add_one hits
    obtain ⟨m, mid2, rfl⟩ := List.exists_cons_of_length_eq_add_one hmid
    have hat : QList.atIndex data (seen.length : Int) = some v := by
      rw [hdata]
      exact QList.atIndex_append_cons seen v its2 _ rfl
    have hrep : QList.replace (pre ++ m :: mid2 ++ post) (pre.length : Int) v
        = some (pre ++ v :: (mid2 ++ post)) := by
      have := QList.replace_append_cons pre m v (mid2 ++ post) (pre.length : Int) rfl
      simpa using this
    unfold updateLoop
    rw [hat]
    simp only
    rw [hrep]
    simp only
    have ih := updateLoop_writes data n (seen ++ [v]) its2 (pre ++ [v]) mid2 post
      (by simp [hdata]) (by simpa using hits) (by simpa using hmid)
    have e1 : pre ++ v :: (mid2 ++ post) = pre ++ [v] ++ mid2 ++ post := by simp
    have e2 : pre ++ v :: its2 ++ post = pre ++ [v] ++ its2 ++ post := by simp
    have e3 : ((pre.length : Int) + 1) = ((pre ++ [v]).length : Int) := by simp
    have e4 : ((seen.length : Int) + 1) = ((seen ++ [v]).length : Int) := by simp
    rw [e1, e2, e3, e4]
    exact ih

/-- Inserting at the row that follows `pre` puts the value between `pre` and `post`. -/
theorem QList.insert_append {α : Type} (pre post : List α) (v : α) :
    QList.insert (pre ++ post) (pre.length : Int) v = pre ++ v :: post := by
  unfold QList.insert QList.count
  by_cases h1 : (pre.length : Int) ≤ 0
  · rw [if_pos h1]
    have : pre = [] := List.length_eq_zero.mp (by omega)
    subst this
    rfl
  · rw [if_neg h1]
    by_cases h2 : ((pre ++ post).length : Int) ≤ (pre.length : Int)
    · rw [if_pos h2]
      have : post = [] := List.length_eq_zero.mp (by
        rw [List.length_append] at h2
        push_cast at h2
        omega)
      subst this
      simp
    · rw [if_neg h2]
      simp

/-- The insert loop of `onDataChanged`, entered at the row that follows `pre`, puts the
items `its` of the new data between `pre` and `post`. -/
theorem insertLoop_inserts (data : List QVariant) :
    ∀ (n : Nat) (seen its pre post : List QVariant),
      data = seen ++ its → its.length = n →
      insertLoop data n (pre.length : Int) (seen.length : Int) (pre ++ post)
        = .ok (pre ++ its ++ post)
  | 0, seen, its, pre, post, _, hits => by
    have h1 : its = [] := List.length_eq_zero.mp hits
    subst h1
    simp [insertLoop]
  | n + 1, seen, its, pre, post, hdata, hits => by
    obtain ⟨v, its2, rfl⟩ := List.exists_cons_of_length_eq_add_one hits
    have hat : QList.atIndex data (seen.length : Int) = some v := by
      rw [hdata]
      exact QList.atIndex_append_cons seen v its2 _ rfl
    unfold insertLoop
    rw [hat]
    simp only
    rw [QList.insert_append pre post v]
    have ih := insertLoop_inserts data n (seen ++ [v]) its2 (pre ++ [v]) post
      (by simp [hdata]) (by simpa using hits)
    have e1 : pre ++ v :: post = pre ++ [v] ++ post := by simp
    have e2 : pre ++ v :: its2 ++ post = pre ++ [v] ++ its2 ++ post := by simp
    have e3 : ((pre.length : Int) + 1) = ((pre ++ [v]).length : Int) := by simp
    have e4 : ((seen.length : Int) + 1) = ((seen ++ [v]).length : Int) := by simp
    rw [e1, e2, e3, e4]
    exact ih

/-- A list cut at row `s` and again `n` rows later. -/
theorem List.cut_in_three {α : Type} (l : List α) (s n : Nat) :
    l = l.take s ++ (l.drop s).take n ++ l.drop (s + n) := by
  rw [List.append_assoc, ← List.drop_drop, List.take_append_drop, List.take_append_drop]

/-- C30: a `dataChanged` notification that passes the identifier filter and the
validation, with `count = 0` or as many new items as `count`, runs to its end with the
item list `s[0..start) ++ data ++ s[start+count..)`; it raises exactly the rows-inserted
notification over `[start, start + data.count() - 1]` when `count = 0` and the data are
not empty, exactly the data-changed notification over `[start, start + count - 1]` when
`data.count() = count > 0`, and nothing when both are 0. -/
theorem onDataChanged_exact (d : QIviPagingModelPrivate) (identifier : QUuid)
    (data : List QVariant) (start count : Int)
    (hid : identifier.isNull = true ∨ identifier = d.m_identifier)
    (hs0 : 0 ≤ start) (hs1 : start ≤ QList.count d.m_itemList)
    (hc0 : 0 ≤ count) (hc1 : count ≤ QList.count d.m_itemList - start)
    (hcase : count = 0 ∨ QList.count data = count) :
    onDataChanged d identifier data start count
      = .done { d with
          m_itemList := d.m_itemList.take start.toNat ++ data
            ++ d.m_itemList.drop (start.toNat + count.toNat) }
        (if count = 0 then
          (if data = [] then []
           else [.rowsAboutToBeInserted start (start + QList.count data - 1),
             .rowsInserted start (start + QList.count data - 1), .countChanged])
         else [.dataChanged (some start) (some (start + count - 1))]) := by
  obtain ⟨s, rfl⟩ := Int.eq_ofNat_of_zero_le hs0
  obtain ⟨c, rfl⟩ := Int.eq_ofNat_of_zero_le hc0
  have hfilter : ¬ (¬ identifier.isNull ∧ identifier ≠ d.m_identifier) := by
    rintro ⟨h1, h2⟩
    rcases hid with h | h
    · exact h1 h
    · exact h2 h
  have hlen : s + c ≤ d.m_itemList.length := by
    unfold QList.count at hc1
    omega
  have hpre : ((d.m_itemList.take s).length : Int) = (s : Int) := by
    rw [List.length_take]
    have : min s d.m_itemList.length = s := by omega
    rw [this]
  unfold onDataChanged
  rw [if_neg hfilter, if_neg (by omega), if_neg (by omega)]
  dsimp only
  simp only [Int.toNat_ofNat]
  by_cases hz : c = 0
  · subst hz
    have hmin : min (QList.count data) ((0 : Nat) : Int) = 0 := by
      unfold QList.count
      omega
    have hmax : max (QList.count data) ((0 : Nat) : Int) = QList.count data := by
      unfold QList.count
      omega
    rw [hmin, hmax]
    simp only [gt_iff_lt, lt_self_iff_false, if_false, add_zero, sub_zero, Nat.cast_zero]
    unfold onDataChangedInsertRemove
    dsimp only
    by_cases hd : data = []
    · subst hd
      simp [QList.count]
    · have hpos : 0 < QList.count data := by
        unfold QList.count
        have := List.length_pos.mpr hd
        omega
      rw [if_neg (by omega), if_pos (by omega)]
      have hloop := insertLoop_inserts data data.length [] data (d.m_itemList.take s)
        (d.m_itemList.drop s) rfl rfl
      rw [List.take_append_drop, hpre] at hloop
      have htn : (QList.count data).toNat = data.length := by
        unfold QList.count
        omega
      rw [htn]
      change insertLoop data data.length (s : Int) 0 d.m_itemList = _ at hloop
      rw [hloop]
      simp [hd]
  · have hcd : QList.count data = (c : Int) := by
      rcases hcase with h | h
      · exact absurd (by exact_mod_cast h) hz
      · exact h
    have hdl : data.length = c := by
      unfold QList.count at hcd
      exact_mod_cast hcd
    rw [hcd]
    simp only [min_self, max_self]
    have hcpos : (c : Int) > 0 := by omega
    rw [if_pos hcpos, if_pos hcpos]
    have hloop := updateLoop_writes data c [] data (d.m_itemList.take s)
      ((d.m_itemList.drop s).take c) (d.m_itemList.drop (s + c)) rfl hdl
      (by rw [List.length_take, List.length_drop]; omega)
    rw [← List.cut_in_three, hpre] at hloop
    change updateLoop data c (s : Int) 0 d.m_itemList = _ at hloop
    rw [Int.toNat_ofNat, hloop]
    dsimp only
    unfold onDataChangedInsertRemove
    dsimp only
    rw [if_neg (by omega), if_neg (by omega)]
    have hnewlen : QList.count (List.take s d.m_itemList ++ data
        ++ List.drop (s + c) d.m_itemList) = QList.count d.m_itemList := by
      unfold QList.count
      simp only [List.length_append, List.length_take, List.length_drop]
      omega
    simp only [index, hnewlen]
    unfold QList.count at hc1 hs1 ⊢
    rw [if_pos (by omega), if_pos (by omega), if_neg (by omega)]

/-- Witness for C30: two rows of five replaced by two new items. -/
theorem onDataChanged_exact_witness :
    onDataChanged (sampleModel .FetchMore (itemRange 5) []) 7 [.item 100, .item 101] 1 2
      = .done { sampleModel .FetchMore (itemRange 5) [] with
          m_itemList := (itemRange 5).take (1 : Int).toNat ++ [.item 100, .item 101]
            ++ (itemRange 5).drop ((1 : Int).toNat + (2 : Int).toNat) }
        (if (2 : Int) = 0 then
          (if [QVariant.item 100, .item 101] = [] then []
           else [.rowsAboutToBeInserted 1 (1 + QList.count [QVariant.item 100, .item 101] - 1),
             .rowsInserted 1 (1 + QList.count [QVariant.item 100, .item 101] - 1),
             .countChanged])
         else [.dataChanged (some 1) (some (1 + 2 - 1))]) :=
  onDataChanged_exact (sampleModel .FetchMore (itemRange 5) []) 7 [.item 100, .item 101] 1 2
    (Or.inr rfl) (by decide) (by decide) (by decide) (by decide) (Or.inr (by decide))

/-! ## The fetched count under `FetchMore` and the tail trigger -/

/-- After `resetModel` the fetched count is 0. -/
theorem resetModel_fetchedCount (d d2 : QIviPagingModelPrivate) (out : List Signal)
    (h : resetModel d = .done d2 out) : d2.m_fetchedDataCount = 0 := by
  unfold resetModel at h
  obtain ⟨out2, h2⟩ := Outcome.withEarlier_done _ _ d2 out h
  obtain ⟨more, bits, rfl, _, _⟩ := fetchMore_onlyMarks _ d2 none out2 h2
  rfl

/-- In either build, an operation or notification that runs to its end leaves an object
under `FetchMore` with a fetched count that is not negative, when it found one. -/
theorem fetchedCount_step (asserts : Bool) (d d2 : QIviPagingModelPrivate) (op : Op)
    (out : List Signal)
    (hinv : d.m_loadingType = .FetchMore → 0 ≤ d.m_fetchedDataCount)
    (hrun : op.runIn asserts d = .done d2 out) :
    d2.m_loadingType = .FetchMore → 0 ≤ d2.m_fetchedDataCount := by
  cases op with
  | setChunkSize chunkSize =>
    simp only [Op.runIn, Op.run, setChunkSize] at hrun
    split at hrun
    · cases hrun
      exact hinv
    · cases hrun
      exact hinv
  | setFetchMoreThreshold fetchMoreThreshold =>
    simp only [Op.runIn, Op.run, setFetchMoreThreshold] at hrun
    split at hrun
    · cases hrun
      exact hinv
    · cases hrun
      exact hinv
  | setLoadingType loadingType =>
    simp only [Op.runIn, Op.run, setLoadingType] at hrun
    split at hrun
    · cases hrun
      exact hinv
    · split at hrun
      · cases hrun
        exact hinv
      · obtain ⟨out2, h2⟩ := Outcome.withEarlier_done _ _ d2 out hrun
        intro _
        rw [resetModel_fetchedCount _ d2 out2 h2]
  | reload =>
    simp only [Op.runIn, Op.run, reload] at hrun
    intro _
    rw [resetModel_fetchedCount _ d2 out hrun]
  | clearServiceObject fresh =>
    simp only [Op.runIn, Op.run, clearServiceObject, clearToDefaults] at hrun
    obtain ⟨out2, h2⟩ := Outcome.withEarlier_done _ _ d2 out hrun
    intro _
    rw [resetModel_fetchedCount _ d2 out2 h2]
  | get i =>
    simp only [Op.runIn, Op.run] at hrun
    cases hget : d.get i with
    | aborted why d3 out3 =>
      rw [hget] at hrun
      simp only [ReadOutcome.toOutcome] at hrun
      cases hrun
    | returned v d3 out3 =>
      rw [hget] at hrun
      simp only [ReadOutcome.toOutcome] at hrun
      cases hrun
      obtain ⟨more, bits, rfl, _, _⟩ := get_onlyMarks d d2 i v out hget
      exact hinv
  | fetchMore =>
    simp only [Op.runIn, Op.run] at hrun
    obtain ⟨more, bits, rfl, _, _⟩ := fetchMore_onlyMarks d d2 none out hrun
    exact hinv
  | onCapabilitiesChanged identifier capabilities =>
    simp only [Op.runIn, Op.run, onCapabilitiesChanged] at hrun
    split at hrun
    · cases hrun
      exact hinv
    · split at hrun
      · cases hrun
        exact hinv
      · cases hrun
        exact hinv
  | onCountChanged identifier new_length =>
    simp only [Op.runIn, Op.run] at hrun
    obtain ⟨l, bits, rfl⟩ := onCountChanged_done d d2 identifier new_length out hrun
    exact hinv
  | onDataChanged identifier data start count =>
    simp only [Op.runIn, Op.run] at hrun
    obtain ⟨l, rfl⟩ := onDataChanged_done d d2 identifier data start count out hrun
    exact hinv
  | onDataFetched identifier items start moreAvailable =>
    simp only [Op.runIn] at hrun
    rcases onDataFetchedIn_done asserts d d2 identifier items start moreAvailable out hrun
      with rfl | ⟨_, rfl⟩ | ⟨_, rfl⟩ | ⟨hl, _, _, _, _, l, _, rfl⟩
    · exact hinv
    · intro _
      show (0 : Int) ≤ QList.count (d.m_itemList ++ items)
      unfold QList.count
      omega
    · exact hinv
    · intro hx
      rw [hl] at hx
      cases hx

/-- In either build, every reachable object under `FetchMore` has a fetched count that is
not negative. -/
theorem fetchedCount_nonneg (asserts : Bool) (d : QIviPagingModelPrivate)
    (hreach : ReachableIn asserts anyOp d) :
    d.m_loadingType = .FetchMore → 0 ≤ d.m_fetchedDataCount := by
  induction hreach with
  | start identifier hasBackend =>
    intro _
    show (0 : Int) ≤ 0
    decide
  | step d3 d4 op out _ _ hrun ih => exact fetchedCount_step asserts d3 d4 op out ih hrun

/-- C11, as stated, fails. In either build, `setChunkSize(2)`,
`setFetchMoreThreshold(INT_MIN)` and the answer `dataFetched(identifier, [x, y], 0, true)`
lead from the constructed object to one under `FetchMore` with the list `x, y`, fetched
count 2 and `m_moreAvailable` set. There `1 >= m_fetchedDataCount - m_fetchMoreThreshold`
is false, the difference being `2 + 2^31`, while `data()` takes the difference as an
`int`, gets `INT_MIN + 2`, raises `fetchMoreThresholdReached` and sends the request
`fetchData(identifier, 2, 2)`. -/
theorem get_fetchMore_threshold_wraps :
    ∃ d, ReachableIn true anyOp d ∧ ReachableIn false anyOp d
      ∧ d.m_loadingType = .FetchMore
      ∧ d.hasBackend = true ∧ 0 < d.m_chunkSize
      ∧ (0 : Int) ≤ 1 ∧ (1 : Int) < QList.count d.m_itemList
      ∧ ¬ ((1 : Int) ≥ d.m_fetchedDataCount - d.m_fetchMoreThreshold
        ∧ d.m_moreAvailable = true)
      ∧ d.get 1 = .returned (.item 2) { d with m_moreAvailable := false }
          [.fetchMoreThresholdReached, .backendFetchData 7 2 2] := by
  have hreach : ∀ asserts : Bool, ReachableIn asserts anyOp
      { constructed 7 true with
        m_chunkSize := 2, m_fetchMoreThreshold := -2147483648,
        m_itemList := [QVariant.item 1, QVariant.item 2], m_fetchedDataCount := 2,
        m_moreAvailable := true } := by
    intro asserts
    exact ReachableIn.step _ _ (.onDataFetched 7 [.item 1, .item 2] 0 true)
      [.rowsAboutToBeInserted 0 1, .rowsInserted 0 1, .countChanged]
      (ReachableIn.step _ _ (.setFetchMoreThreshold (-2147483648))
        [.fetchMoreThresholdChanged (-2147483648)]
        (ReachableIn.step _ _ (.setChunkSize 2) [.chunkSizeChanged 2]
          (ReachableIn.start 7 true) trivial rfl)
        trivial rfl)
      trivial (by cases asserts <;> rfl)
  exact ⟨_, hreach true, hreach false, by rfl, by rfl, by decide, by decide, by decide,
    by decide, by rfl⟩

/-- C11, amended: in either build, in every reachable object under `FetchMore` with a
backend, a positive chunk size and the difference `m_fetchedDataCount -
m_fetchMoreThreshold` inside the `int` range, a read of a valid row `i` with
`i >= m_fetchedDataCount - m_fetchMoreThreshold` and `m_moreAvailable` set raises
`fetchMoreThresholdReached` and sends exactly one request `fetchData(m_identifier,
m_fetchedDataCount, m_chunkSize)`, leaving `m_moreAvailable` cleared; any other read of a
valid row raises nothing and leaves the object as it was. Both return the item of the
row. -/
theorem get_fetchMore_tail_trigger (asserts : Bool) (d : QIviPagingModelPrivate) (i : Int)
    (hreach : ReachableIn asserts anyOp d)
    (hload : d.m_loadingType = .FetchMore) (hb : d.hasBackend = true)
    (hc : 0 < d.m_chunkSize) (hi0 : 0 ≤ i) (hi1 : i < QList.count d.m_itemList)
    (hrange : inIntRange (d.m_fetchedDataCount - d.m_fetchMoreThreshold)) :
    (i ≥ d.m_fetchedDataCount - d.m_fetchMoreThreshold ∧ d.m_moreAvailable = true →
      ∃ v, d.m_itemList.get? i.toNat = some v
        ∧ d.get i = .returned v
            { d with
              m_moreAvailable := false
              m_availableChunks :=
                if d.m_fetchedDataCount.tdiv d.m_chunkSize
                    < QBitArray.count d.m_availableChunks then
                  d.m_availableChunks.set (d.m_fetchedDataCount.tdiv d.m_chunkSize).toNat true
                else d.m_availableChunks }
            [.fetchMoreThresholdReached,
              .backendFetchData d.m_identifier d.m_fetchedDataCount d.m_chunkSize])
    ∧ (¬ (i ≥ d.m_fetchedDataCount - d.m_fetchMoreThreshold ∧ d.m_moreAvailable = true) →
      ∃ v, d.m_itemList.get? i.toNat = some v ∧ d.get i = .returned v d []) := by
  have h := get_fetchMore_reads d i hload hb hc hi0 hi1
    (fetchedCount_nonneg asserts d hreach hload)
  rw [wrapInt_of_inIntRange _ hrange] at h
  exact h

/-- Witness for C11 amended: the object reached by `setChunkSize(2)`,
`setFetchMoreThreshold(1)` and the answer `dataFetched(identifier, [x, y], 0, true)`: the
list `x, y` with fetched count 2, threshold 1, chunk size 2; the read of row 1 sends
`fetchData(identifier, 2, 2)`. -/
theorem get_fetchMore_tail_trigger_witness :
    ∃ v, [QVariant.item 1, .item 2].get? 1 = some v
      ∧ QIviPagingModelPrivate.get { constructed 7 true with
            m_chunkSize := 2, m_fetchMoreThreshold := 1,
            m_itemList := [QVariant.item 1, QVariant.item 2], m_fetchedDataCount := 2,
            m_moreAvailable := true } 1
        = .returned v
            { constructed 7 true with
              m_chunkSize := 2, m_fetchMoreThreshold := 1,
              m_itemList := [QVariant.item 1, QVariant.item 2], m_fetchedDataCount := 2,
              m_moreAvailable := false }
            [.fetchMoreThresholdReached, .backendFetchData 7 2 2] :=
  (get_fetchMore_tail_trigger true
    { constructed 7 true with
      m_chunkSize := 2, m_fetchMoreThreshold := 1,
      m_itemList := [QVariant.item 1, QVariant.item 2], m_fetchedDataCount := 2,
      m_moreAvailable := true } 1
    (ReachableIn.step _ _ (.onDataFetched 7 [.item 1, .item 2] 0 true)
      [.rowsAboutToBeInserted 0 1, .rowsInserted 0 1, .countChanged]
      (ReachableIn.step _ _ (.setFetchMoreThreshold 1) [.fetchMoreThresholdChanged 1]
        (ReachableIn.step _ _ (.setChunkSize 2) [.chunkSizeChanged 2]
          (ReachableIn.start 7 true) trivial rfl)
        trivial rfl)
      trivial rfl)
    rfl rfl (by decide) (by decide) (by decide) (by decide)).1 ⟨by decide, rfl⟩

/-! ## Populated slots and availability bits -/

/-- Without a populated slot every populated slot has its bit. -/
theorem noPopulated_marked (d : QIviPagingModelPrivate) (h : d.noPopulated) :
    populatedAreMarked d := by
  intro j v hj
  have hmem : QVariant.item v ∈ d.m_itemList := List.get?_mem hj
  cases h _ hmem

/-- A set bit stays where it is when bits are added behind the tracker. -/
theorem QBitArray.atIndex_append_of_true (b extra : List Bool) (k : Int)
    (h : QBitArray.atIndex b k = some true) :
    QBitArray.atIndex (b ++ extra) k = some true := by
  unfold QBitArray.atIndex QBitArray.count at h ⊢
  split at h
  · rename_i hk
    have hlt : k.toNat < b.length := by omega
    rw [if_pos ⟨hk.1, by rw [List.length_append]; push_cast; omega⟩]
    rw [List.get?_eq_getElem?] at h ⊢
    rw [List.getElem?_append_left hlt]
    exact h
  · cases h

/-- A populated slot of a list extended by empty slots is one of the list. -/
theorem populated_of_append_replicate (l : List QVariant) (n j : Nat) (v : Nat)
    (h : (l ++ List.replicate n QVariant.invalid).get? j = some (.item v)) :
    l.get? j = some (.item v) := by
  rw [List.get?_eq_getElem?] at h ⊢
  by_cases hlt : j < l.length
  · rw [List.getElem?_append_left hlt] at h
    exact h
  · rw [List.getElem?_append_right (by omega), List.getElem?_replicate] at h
    split at h <;> cases h

/-- In either build, one permitted step keeps, under `DataChanged`, the bits of the
populated slots. -/
theorem keepsBits_step (asserts : Bool) (d d2 : QIviPagingModelPrivate) (op : Op)
    (out : List Signal)
    (hinv : d.m_loadingType = .DataChanged → populatedAreMarked d)
    (hall : keepsBits d op) (hrun : op.runIn asserts d = .done d2 out) :
    d2.m_loadingType = .DataChanged → populatedAreMarked d2 := by
  cases op with
  | setChunkSize chunkSize =>
    have hall2 : d.noPopulated ∨ chunkSize = d.m_chunkSize := hall
    simp only [Op.runIn, Op.run, setChunkSize] at hrun
    split at hrun
    · cases hrun
      exact hinv
    · rename_i hne
      cases hrun
      rcases hall2 with hno | heq
      · exact fun _ => noPopulated_marked _ hno
      · exact absurd heq.symm hne
  | onDataChanged identifier data start count =>
    have hall2 : d.onDataChanged identifier data start count = .done d [] := hall
    simp only [Op.runIn, Op.run] at hrun
    rw [hall2] at hrun
    cases hrun
    exact hinv
  | setFetchMoreThreshold fetchMoreThreshold =>
    simp only [Op.runIn, Op.run, setFetchMoreThreshold] at hrun
    split at hrun
    · cases hrun
      exact hinv
    · cases hrun
      exact hinv
  | setLoadingType loadingType =>
    simp only [Op.runIn, Op.run, setLoadingType] at hrun
    split at hrun
    · cases hrun
      exact hinv
    · split at hrun
      · cases hrun
        exact hinv
      · obtain ⟨out2, h2⟩ := Outcome.withEarlier_done _ _ d2 out hrun
        obtain ⟨h3, _, _⟩ := resetModel_done _ d2 out2 h2
        exact fun _ => populatedAreMarked_of_empty d2 h3
  | reload =>
    simp only [Op.runIn, Op.run, reload] at hrun
    obtain ⟨h3, _, _⟩ := resetModel_done _ d2 out hrun
    exact fun _ => populatedAreMarked_of_empty d2 h3
  | clearServiceObject fresh =>
    simp only [Op.runIn, Op.run, clearServiceObject, clearToDefaults] at hrun
    obtain ⟨out2, h2⟩ := Outcome.withEarlier_done _ _ d2 out hrun
    obtain ⟨h3, _, _⟩ := resetModel_done _ d2 out2 h2
    exact fun _ => populatedAreMarked_of_empty d2 h3
  | get i =>
    simp only [Op.runIn, Op.run] at hrun
    cases hget : d.get i with
    | aborted why d3 out3 =>
      rw [hget] at hrun
      simp only [ReadOutcome.toOutcome] at hrun
      cases hrun
    | returned v d3 out3 =>
      rw [hget] at hrun
      simp only [ReadOutcome.toOutcome] at hrun
      cases hrun
      obtain ⟨_, h2, h3⟩ := onlyMarks_keeps d d2 (get_onlyMarks d d2 i v out hget)
      exact fun hl => h3 (hinv (h2 ▸ hl))
  | fetchMore =>
    simp only [Op.runIn, Op.run] at hrun
    obtain ⟨_, h2, h3⟩ := onlyMarks_keeps d d2 (fetchMore_onlyMarks d d2 none out hrun)
    exact fun hl => h3 (hinv (h2 ▸ hl))
  | onCapabilitiesChanged identifier capabilities =>
    simp only [Op.runIn, Op.run, onCapabilitiesChanged] at hrun
    split at hrun
    · cases hrun
      exact hinv
    · split at hrun
      · cases hrun
        exact hinv
      · cases hrun
        exact hinv
  | onCountChanged identifier new_length =>
    have hall2 : d.onCountChanged identifier new_length = .done d []
        ∨ (new_length.tdiv d.m_chunkSize + 1 ≤ 2147483647
          ∧ (d.noPopulated
            ∨ QBitArray.count d.m_availableChunks
              ≤ new_length.tdiv d.m_chunkSize + 1)) := hall
    simp only [Op.runIn, Op.run] at hrun
    rcases hall2 with hdrop | ⟨_, hkeep⟩
    · rw [hdrop] at hrun
      cases hrun
      exact hinv
    · unfold onCountChanged at hrun
      split at hrun
      · cases hrun
        exact hinv
      · dsimp only at hrun
        split at hrun
        · cases hrun
        · split at hrun
          · cases hrun
          · rename_i bits hres
            cases hrun
            intro hl j v hj
            have hj2 := populated_of_append_replicate _ _ j v hj
            rcases hkeep with hno | hgrow
            · cases hno _ (List.get?_mem hj2)
            · have hold := hinv hl j v hj2
              dsimp only at hres ⊢
              unfold QBitArray.resize at hres
              split at hres
              · cases hres
              · cases hres
                unfold QBitArray.count at hgrow
                rw [List.take_of_length_le (by omega)]
                exact QBitArray.atIndex_append_of_true _ _ _ hold
  | onDataFetched identifier items start moreAvailable =>
    have hall2 : d.m_loadingType = .FetchMore
        ∨ (¬ identifier.isNull ∧ (QList.count items = 0 ∨ identifier ≠ d.m_identifier))
        ∨ (QList.count items ≤ d.m_chunkSize
          ∧ (start + QList.count items - 1).tdiv d.m_chunkSize
            = start.tdiv d.m_chunkSize) := hall
    simp only [Op.runIn] at hrun
    rcases onDataFetchedIn_done asserts d d2 identifier items start moreAvailable out hrun
      with rfl | ⟨hl, rfl⟩ | ⟨_, rfl⟩ | ⟨hl, hf, hc0, hk0, hk1, l, hloop, rfl⟩
    · exact hinv
    · exact fun hx => by rw [hl] at hx; cases hx
    · exact hinv
    · rcases hall2 with hfm | hdrop | ⟨hsize, halign⟩
      · rw [hl] at hfm
        cases hfm
      · exact absurd hdrop hf
      · have hc : 0 < d.m_chunkSize := by
          unfold QList.count at hsize
          omega
        intro _ j v hj
        have hold := hinv hl
        dsimp only at hj ⊢
        rw [List.get?_eq_getElem?] at hj
        by_cases hin : start ≤ (j : Int) ∧ (j : Int) < start + (items.length : Int)
        · have hstart : 0 ≤ start := by
            cases hn : items.length with
            | zero => rw [hn] at hin; push_cast at hin; omega
            | succ m =>
              rw [hn] at hloop
              have := fetchedReplaceLoop_nonneg items start m 0 d.m_itemList l hloop
              omega
          have hsame : (j : Int) / d.m_chunkSize = start.tdiv d.m_chunkSize := by
            rw [← Int.tdiv_eq_ediv (by omega) (le_of_lt hc)]
            apply le_antisymm
            · rw [← halign]
              exact tdiv_mono_nonneg _ _ _ (by omega) (by unfold QList.count; omega) hc
            · exact tdiv_mono_nonneg _ _ _ hstart hin.1 hc
          rw [hsame]
          exact QBitArray.atIndex_set_self _ _ hk0 hk1
        · have hsame : l[j]? = d.m_itemList[j]? := by
            by_cases hlt : (j : Int) < start
            · exact fetchedReplaceLoop_below items start _ 0 _ _ hloop j (by omega)
            · exact fetchedReplaceLoop_above items start _ 0 _ _ hloop j (by omega)
          rw [hsame, ← List.get?_eq_getElem?] at hj
          exact QBitArray.atIndex_set_of_true _ _ _ (hold j v hj)

/-- C19, as stated, fails. Four runs that stay under `DataChanged` end in an object with a
populated slot whose chunk bit is not set. In either build: after the count report 7,
the notification `dataChanged(identifier, [x], 0, 1)` populates row 0 of a chunk that
was never fetched; after row 30 has been fetched, `setChunkSize(10)` moves it to chunk
3, which the tracker does not have; after row 30 has been fetched, the count report 1
cuts the tracker down to one bit. In the build without assertions: after the count
report 40, the five-item batch `dataFetched(identifier, items, 29, true)`, which
straddles chunks 0 and 1, populates rows 29 to 33 and sets bit 0 alone, so that row 30
is populated while bit 1 is not set. -/
theorem populated_slot_without_bit :
    (∀ asserts : Bool, ∃ d, ReachableIn asserts anyOp d ∧ d.m_loadingType = .DataChanged
      ∧ 0 < d.m_chunkSize ∧ d.m_itemList.get? 0 = some (.item 1)
      ∧ QBitArray.atIndex d.m_availableChunks (((0 : Nat) : Int) / d.m_chunkSize)
          = some false
      ∧ ¬ populatedAreMarked d)
    ∧ (∀ asserts : Bool, ∃ d, ReachableIn asserts anyOp d ∧ d.m_loadingType = .DataChanged
      ∧ 0 < d.m_chunkSize ∧ d.m_itemList.get? 30 = some (.item 1)
      ∧ QBitArray.atIndex d.m_availableChunks (((30 : Nat) : Int) / d.m_chunkSize) = none
      ∧ ¬ populatedAreMarked d)
    ∧ (∀ asserts : Bool, ∃ d, ReachableIn asserts anyOp d ∧ d.m_loadingType = .DataChanged
      ∧ 0 < d.m_chunkSize ∧ d.m_itemList.get? 30 = some (.item 1)
      ∧ QBitArray.atIndex d.m_availableChunks (((30 : Nat) : Int) / d.m_chunkSize) = none
      ∧ ¬ populatedAreMarked d)
    ∧ (∃ d, ReachableIn false anyOp d ∧ d.m_loadingType = .DataChanged
      ∧ 0 < d.m_chunkSize ∧ d.m_itemList.get? 30 = some (.item 1)
      ∧ QBitArray.atIndex d.m_availableChunks (((30 : Nat) : Int) / d.m_chunkSize)
          = some false
      ∧ ¬ populatedAreMarked d) := by
  have hany : ∀ asserts d, ReachableIn asserts keepsBits d → ReachableIn asserts anyOp d :=
    fun asserts d h => reachableIn_mono asserts keepsBits anyOp (fun _ _ _ => trivial) d h
  refine ⟨fun asserts => ⟨{ sampleModel .DataChanged
        (QVariant.item 1 :: List.replicate 6 .invalid) [false] with
      m_capabilities := SupportsGetSize }, ?_, by rfl, by decide, by rfl, by rfl, ?_⟩,
    fun asserts => ⟨{ sampleModel .DataChanged
          (List.replicate 30 QVariant.invalid ++ QVariant.item 1 :: List.replicate 9 QVariant.invalid)
          [false, true] with
        m_capabilities := SupportsGetSize, m_fetchedDataCount := 31, m_chunkSize := 10 },
      ?_, by rfl, by decide, by rfl, by rfl, ?_⟩,
    fun asserts => ⟨{ sampleModel .DataChanged
          (List.replicate 30 QVariant.invalid ++ QVariant.item 1 :: List.replicate 10 QVariant.invalid)
          [false] with
        m_capabilities := SupportsGetSize, m_fetchedDataCount := 31 },
      ?_, by rfl, by decide, by rfl, by rfl, ?_⟩,
    ⟨{ sampleModel .DataChanged
          (List.replicate 29 QVariant.invalid ++ itemRange 5 ++ List.replicate 6 QVariant.invalid)
          [true, false] with
        m_capabilities := SupportsGetSize, m_moreAvailable := true,
        m_fetchedDataCount := 34 },
      ?_, by rfl, by decide, by rfl, by rfl, ?_⟩⟩
  · exact ReachableIn.step _ _ (.onDataChanged 7 [.item 1] 0 1)
      [.dataChanged (some 0) (some 0)]
      (ReachableIn.step _ _ (.onCountChanged 7 7)
        [.rowsAboutToBeInserted 0 6, .rowsInserted 0 6, .countChanged]
        (hany asserts _ (reachableIn_fresh_dataChanged asserts)) trivial rfl)
      trivial rfl
  · intro h
    have := h 0 1 rfl
    revert this
    decide
  · exact ReachableIn.step _ _ (.setChunkSize 10) [.chunkSizeChanged 10]
      (hany asserts _ (reachableIn_row_thirty_fetched asserts)) trivial rfl
  · intro h
    have := h 30 1 rfl
    revert this
    decide
  · exact ReachableIn.step _ _ (.onCountChanged 7 1)
      [.rowsAboutToBeInserted 40 40, .rowsInserted 40 40, .countChanged]
      (hany asserts _ (reachableIn_row_thirty_fetched asserts)) trivial rfl
  · intro h
    have := h 30 1 rfl
    revert this
    decide
  · exact ReachableIn.step _ _ (.onDataFetched 7 (itemRange 5) 29 true)
      [.dataChanged (some 29) (some 33)]
      (hany false _ (reachableIn_forty_slots false)) trivial (by rfl)
  · intro h
    have := h 30 1 rfl
    revert this
    decide

/-- C19, amended: in the build with assertions and in the build without, in every object
reached under `DataChanged` through the public operations and the notifications, every
populated slot at row `i` has the availability bit of chunk `i / m_chunkSize` set,
provided that `setChunkSize` changes the chunk size only while no slot is populated,
every `dataChanged` notification is one the handler drops, every count report is
dropped or resizes the tracker, to a size inside the `int` range, while no slot is
populated or without shrinking it, and every `dataFetched` notification handled under
`DataChanged` and not dropped by the identifier filter satisfies `items.count() <=
m_chunkSize` and `(start + items.count() - 1) / m_chunkSize == start / m_chunkSize`. -/
theorem populated_slots_are_marked (asserts : Bool) (d : QIviPagingModelPrivate)
    (hreach : ReachableIn asserts keepsBits d) (hload : d.m_loadingType = .DataChanged) :
    populatedAreMarked d := by
  have hboth : ∀ d2, ReachableIn asserts keepsBits d2 →
      d2.m_loadingType = .DataChanged → populatedAreMarked d2 := by
    intro d2 h
    induction h with
    | start identifier hasBackend => exact fun _ => populatedAreMarked_of_empty _ rfl
    | step d3 d4 op out _ hall hrun ih => exact keepsBits_step asserts d3 d4 op out ih hall hrun
  exact hboth d hreach hload

/-- Witness for C19 amended: the object in which row 30 has been fetched, reached in the
build without assertions. -/
theorem populated_slots_are_marked_witness :
    populatedAreMarked
      { sampleModel .DataChanged
          (List.replicate 30 .invalid ++ .item 1 :: List.replicate 9 .invalid)
          [false, true] with
        m_capabilities := SupportsGetSize, m_fetchedDataCount := 31 } :=
  populated_slots_are_marked false _ (reachableIn_row_thirty_fetched false) rfl

end QtIvi
